import Mathlib

set_option autoImplicit false
set_option linter.unusedVariables false

/-!
Shallow embedding of the ProPresenter slide-cleanup program
(`main.py` together with the `propresenter` helper package).

Modelling conventions:
* a Python `str` is a `List Char` (`PyStr`);
* a Python `set` of ints is a sorted duplicate-free `List Nat`
  (Python set iteration order is modelled as ascending numeric order);
* console input (`input()` / the interactive `choice` prompt) is a list of
  input lines, threaded through every function that may prompt;
* a raised exception is `Except.error`, carrying the console input that
  remains at the moment the exception is raised (so a caller that catches
  the exception continues with the right input state);
* protobuf messages keep only the fields the program reads or writes:
  a slide action's embedded text blob is flattened into a single `rtf`
  field, geometry/color template fields are omitted.
-/

namespace PP

abbrev PyStr := List Char

/-- Console input lines still unread. -/
abbrev Streams := List PyStr

def pyOf (s : String) : PyStr := s.toList

/-- Characters stripped by Python `str.strip()` (ASCII whitespace). -/
def isPySpace (c : Char) : Bool :=
  c = ' ' || c = '\t' || c = '\n' || c = '\x0d' || c = Char.ofNat 11 || c = Char.ofNat 12

/-- Python `str.strip()`. -/
def pyStrip (s : PyStr) : PyStr :=
  ((s.dropWhile isPySpace).reverse.dropWhile isPySpace).reverse

/-- Python `str.rstrip(".")`. -/
def pyRstripDots (s : PyStr) : PyStr :=
  (s.reverse.dropWhile (fun c => c = '.')).reverse

/-- Python `str.lower()` (ASCII case mapping). -/
def pyLower (s : PyStr) : PyStr := s.map Char.toLower

/-- Python `str.startswith`. -/
def pyStartsWith (s p : PyStr) : Bool := p.isPrefixOf s

def pyReplaceGo (old new : PyStr) : Nat → PyStr → PyStr
  | _, [] => []
  | 0, s => s
  | fuel + 1, c :: rest =>
    if old.isPrefixOf (c :: rest) then
      new ++ pyReplaceGo old new fuel ((c :: rest).drop old.length)
    else
      c :: pyReplaceGo old new fuel rest

/-- Python `str.replace(old, new)`: left-to-right, non-overlapping.
The fuel `s.length` suffices because `old` is nonempty at every call site,
so each step consumes at least one character. -/
def pyReplace (s old new : PyStr) : PyStr :=
  if old = [] then s else pyReplaceGo old new s.length s

def digitsToNat (ds : PyStr) : Nat :=
  ds.foldl (fun a c => 10 * a + (c.toNat - 48)) 0

/-- Python `int(str)`: strip whitespace, optional sign, decimal digits. -/
def pyParseInt (s : PyStr) : Option Int :=
  let t := pyStrip s
  let core : PyStr → Option Nat := fun ds =>
    if ds ≠ [] ∧ ds.all Char.isDigit then some (digitsToNat ds) else none
  match t with
  | '-' :: ds => (core ds).map (fun n => -(n : Int))
  | '+' :: ds => (core ds).map (fun n => (n : Int))
  | ds => (core ds).map (fun n => (n : Int))

/-- Decimal digit string of a natural number. -/
def natDec (n : Nat) : PyStr := Nat.toDigits 10 n

/-- Python `f"{n:03d}"` for a nonnegative number. -/
def padNum3 (n : Nat) : PyStr :=
  let d := natDec n
  List.replicate (3 - d.length) '0' ++ d

/-- `utils.normalize`: keep ASCII 32..127, expand any other character `c`
to the text `\u<ord c> ?`. -/
def normalize (s : PyStr) : PyStr :=
  (s.map (fun c =>
    let v := c.toNat
    if 32 ≤ v ∧ v ≤ 127 then [c] else '\\' :: 'u' :: (natDec v ++ [' ', '?']))).flatten

/-- `utils.normalize2`: keep ASCII 32..127, expand any other character `c`
to the text `\'<hex of ord c>`. -/
def normalize2 (s : PyStr) : PyStr :=
  (s.map (fun c =>
    let v := c.toNat
    if 32 ≤ v ∧ v ≤ 127 then [c] else '\\' :: '\'' :: Nat.toDigits 16 v)).flatten

/-- `types.FormattedLine`: a text line together with its opaque
formatting prefix. -/
structure FormattedLine where
  formatting : PyStr := []
  text : PyStr := []
  deriving DecidableEq, Repr, Inhabited

def FormattedLine.replace (L : FormattedLine) (pattern replacement : PyStr) : FormattedLine :=
  ⟨L.formatting, pyReplace L.text pattern replacement⟩

def FormattedLine.startswith (L : FormattedLine) (p : PyStr) : Bool :=
  pyStartsWith L.text p

def FormattedLine.strip (L : FormattedLine) : FormattedLine :=
  ⟨L.formatting, pyStrip L.text⟩

def FormattedLine.lower (L : FormattedLine) : FormattedLine :=
  ⟨L.formatting, pyLower L.text⟩

/-- `types.Song`: book and number are falsy (`[]` / `0`) for songs that do
not come from a songbook (Python `None` and `""`/`0` collapse to these). -/
structure Song where
  title : PyStr := []
  info : List PyStr := []
  book : PyStr := []
  number : Nat := 0
  deriving DecidableEq, Repr, Inhabited

/-- `re.match(r"verse?\s*\d+", t, re.IGNORECASE)` tested for a match.
After the literal `vers`, a greedy optional `e` never needs backtracking
(an `e` that is consumed could satisfy neither `\s` nor `\d`). -/
def matchesVerse (t : PyStr) : Bool :=
  match pyLower t with
  | 'v' :: 'e' :: 'r' :: 's' :: rest =>
    let rest2 := if rest.head? = some 'e' then rest.tail else rest
    ((rest2.dropWhile isPySpace).head?.map Char.isDigit).getD false
  | _ => false

/-- `re.match(r"^\d{,2}\.?$", t)` tested for a match: up to two digits and
an optional trailing dot; `$` also matches just before one final newline. -/
def matchesBareNum (t : PyStr) : Bool :=
  let s := if t.getLast? = some '\n' then t.dropLast else t
  match s with
  | [] => true
  | [c] => c.isDigit || c = '.'
  | [c, d] => (c.isDigit && d.isDigit) || (c.isDigit && d = '.')
  | [c, d, e] => c.isDigit && d.isDigit && e = '.'
  | _ => false

/-- Text values trimmed from slide ends in body mode: `""`, `"-"`, `"."`. -/
def isTrimText (L : FormattedLine) : Bool :=
  L.text = [] || L.text = ['-'] || L.text = ['.']

/-- The two `while ... pop` loops of body mode: strip leading and trailing
lines whose text is `""`, `"-"` or `"."`. -/
def pyTrimEnds (l : List FormattedLine) : List FormattedLine :=
  ((l.dropWhile isTrimText).reverse.dropWhile isTrimText).reverse

/-- The book/number/info filtering pass of `cleanup_slide_text`
(only reached in body mode with a truthy book and number). -/
def bookInfoFilter (s : Song) (l : List FormattedLine) : List FormattedLine :=
  let info_lines1 := s.info.map (fun line => pyLower (normalize line))
  let info_lines2 := s.info.map (fun line => pyLower (normalize2 line))
  let p1 := pyLower (s.book ++ ' ' :: padNum3 s.number)
  let p2 := pyLower (s.book ++ ' ' :: natDec s.number)
  l.filter (fun line =>
    let low := line.lower
    !(low.startswith p1) && !(low.startswith p2) &&
    !(info_lines1.contains low.text) && !(info_lines2.contains low.text) &&
    !(info_lines1.contains (pyReplace low.text (pyOf ", ") (pyOf ". "))) &&
    !(info_lines2.contains (pyReplace low.text (pyOf ", ") (pyOf ". "))))

/-- The standalone-number merge: if more than one line remains and the first
line's text is a bare (up to two digit) number, merge it into the second
line and drop it. -/
def numberMerge (l : List FormattedLine) : List FormattedLine :=
  match l with
  | a :: b :: rest =>
    if matchesBareNum a.text then
      { b with text := pyRstripDots a.text ++ pyOf ". " ++ b.text } :: rest
    else l
  | _ => l

/-- The ellipsis-centering pass: if exactly one end is the literal `...`,
pad the other end with a blank line (the pass runs on nonempty lists, where
`head?`/`getLast?` coincide with Python's `lines[0]`/`lines[-1]`). -/
def ellipsisPad (l : List FormattedLine) : List FormattedLine :=
  if (l.head?.map FormattedLine.text) = some (pyOf "...") ∧
      (l.getLast?.map FormattedLine.text) ≠ some (pyOf "...") then
    l ++ [({} : FormattedLine)]
  else if (l.getLast?.map FormattedLine.text) = some (pyOf "...") ∧
      (l.head?.map FormattedLine.text) ≠ some (pyOf "...") then
    ({} : FormattedLine) :: l
  else l

/-- `cleanup_slide_text(lines, intro, song)`.
`none` models the `AttributeError` raised by `song.book` when body mode is
entered with `song is None` (the guard `not intro and song.book and
song.number` evaluates `song.book` whenever `intro` is false). -/
def cleanup_slide_text (lines : List FormattedLine) (intro : Bool) (song : Option Song) :
    Option (List FormattedLine) :=
  let l1 := lines.map (fun L => ((L.replace (pyOf "\\tab") []).replace (pyOf "\\par") []).strip)
  let l2 := (l1.filter (fun L => !(L.startswith (pyOf "*")))).map (fun L => L.replace (pyOf "*") [])
  let l3 := l2.map (fun L => L.replace (pyOf "\\u8232?") [])
  let l4 := l3.filter (fun L =>
    !(L.startswith (normalize (pyOf "©"))) && !(L.startswith (normalize2 (pyOf "©"))))
  let l5 := l4.filter (fun L => !(matchesVerse L.text))
  let l6 := l5.map FormattedLine.strip
  let l7 := if intro then l6.filter (fun L => L.text ≠ []) else pyTrimEnds l6
  let l8? : Option (List FormattedLine) :=
    if intro then some l7
    else
      match song with
      | none => none
      | some s => if s.book ≠ [] ∧ s.number ≠ 0 then some (bookInfoFilter s l7) else some l7
  l8?.map (fun l8 => if l8 = [] then [] else ellipsisPad (numberMerge l8))

/-- Python `"\\par".join(lines)`. -/
def joinPar : List PyStr → PyStr
  | [] => []
  | [l] => l
  | l :: l2 :: rest => l ++ pyOf "\\par" ++ joinPar (l2 :: rest)

/-- `generate_slide_rtf(lines, font_size)`: fixed preamble, each line
rendered as `<formatting> <normalized text>`, joined by `\par`. -/
def generate_slide_rtf (lines : List FormattedLine) (font_size : Nat := 180) : PyStr :=
  pyOf "\x7b\\rtf1\\ansi\\uc1\\deff0\x7b\\fonttbl\x7b\\f0\\fnil Arial;\x7d\x7d\\pard\\qc\\sa0\\sb0\\fs"
    ++ natDec font_size ++ pyOf "\\f0 "
    ++ joinPar (lines.map (fun L => L.formatting ++ ' ' :: normalize L.text)) ++ pyOf "\x7d"

/-- Consume a literal, returning the rest of the input. -/
def eatLit : PyStr → PyStr → Option PyStr
  | [], s => some s
  | _ :: _, [] => none
  | p :: ps, c :: cs => if p = c then eatLit ps cs else none

/-- Consume a greedy optional single character. -/
def eatOpt (c : Char) : PyStr → PyStr
  | [] => []
  | x :: rest => if x = c then rest else x :: rest

/-- The group `(\b0?\i0?\ul0?\strike0?)` shared by all four extraction
patterns.  Each optional `0` is deterministic: a consumed `0` could never
satisfy the following `\`. -/
def fmtChain (s : PyStr) : Option PyStr := do
  let r1 ← eatLit (pyOf "\\b") s
  let r2 := eatOpt '0' r1
  let r3 ← eatLit (pyOf "\\i") r2
  let r4 := eatOpt '0' r3
  let r5 ← eatLit (pyOf "\\ul") r4
  let r6 := eatOpt '0' r5
  let r7 ← eatLit (pyOf "\\strike") r6
  pure (eatOpt '0' r7)

/-- Characters consumed between `s` and its suffix `rest`. -/
def takeConsumed (s rest : PyStr) : PyStr := s.take (s.length - rest.length)

/-- All suffixes of `s` that start with `marker`, nearest first, stopping
at a newline (the lazy `.*?` before the marker cannot cross `\n`). -/
def scanMarker (marker : PyStr) : PyStr → List PyStr
  | [] => []
  | c :: rest =>
    if c = '\n' then []
    else if marker.isPrefixOf (c :: rest) then (c :: rest) :: scanMarker marker rest
    else scanMarker marker rest

/-- Match `(.*?)(t₁|t₂|...)`: scan forward (never past a newline) to the
nearest position where one of the ordered terminators matches; return the
captured text and the input after the terminator. -/
def findTermin (terms : List PyStr) : PyStr → Option (PyStr × PyStr)
  | [] => none
  | c :: rest =>
    match terms.find? (fun t => t.isPrefixOf (c :: rest)) with
    | some t => some ([], (c :: rest).drop t.length)
    | none =>
      if c = '\n' then none
      else (findTermin terms rest).map (fun pr => (c :: pr.1, pr.2))

/-- Try one of the first three extraction patterns at the start of `s`:
`(\b0?\i0?\ul0?\strike0?).*?<marker>[\d+] ?(.*?)(<terminators>)`.
The lazy `.*?` before the marker backtracks across marker occurrences,
so each occurrence (nearest first) is tried until the tail matches.
Returns the two captures and the input after the match. -/
def tryMarkerPat (marker : PyStr) (needDigits : Bool) (terms : List PyStr) (s : PyStr) :
    Option ((PyStr × PyStr) × PyStr) := do
  let rest ← fmtChain s
  let g1 := takeConsumed s rest
  (scanMarker marker rest).findSome? (fun t => do
    let r1 := t.drop marker.length
    let r2 ←
      if needDigits then
        (if r1.takeWhile Char.isDigit = [] then none else some (r1.dropWhile Char.isDigit))
      else some r1
    let r3 := eatOpt ' ' r2
    let (cap, rest') ← findTermin terms r3
    pure ((g1, cap), rest'))

def tryP1 (s : PyStr) : Option ((PyStr × PyStr) × PyStr) :=
  tryMarkerPat (pyOf "\\cb") true [pyOf "\\par", pyOf "\x7d"] s

def tryP2 (s : PyStr) : Option ((PyStr × PyStr) × PyStr) :=
  tryMarkerPat (pyOf "\\nosupersub") false [pyOf "\\par", pyOf "\x7d"] s

def tryP3 (s : PyStr) : Option ((PyStr × PyStr) × PyStr) :=
  tryMarkerPat (pyOf "\\ltrch") false [pyOf "\x7d"] s

/-- The fourth pattern `\par(\b0?\i0?\ul0?\strike0?) ?(.*?)(\par|\})`. -/
def tryP4 (s : PyStr) : Option ((PyStr × PyStr) × PyStr) := do
  let r0 ← eatLit (pyOf "\\par") s
  let r1 ← fmtChain r0
  let g1 := takeConsumed r0 r1
  let r2 := eatOpt ' ' r1
  let (cap, rest') ← findTermin [pyOf "\\par", pyOf "\x7d"] r2
  pure ((g1, cap), rest')

/-- `re.findall`: try the pattern at every position left to right; after a
match, continue after it.  All four patterns only produce nonempty
matches, so fuel `s.length + 1` is never exhausted. -/
def reFindallGo (m : PyStr → Option ((PyStr × PyStr) × PyStr)) :
    Nat → PyStr → List (PyStr × PyStr)
  | 0, _ => []
  | fuel + 1, s =>
    match m s with
    | some (g, rest) => g :: reFindallGo m fuel rest
    | none =>
      match s with
      | [] => []
      | _ :: t => reFindallGo m fuel t

def reFindall (m : PyStr → Option ((PyStr × PyStr) × PyStr)) (s : PyStr) :
    List (PyStr × PyStr) :=
  reFindallGo m (s.length + 1) s

/-- `extract_slide_text`: the four patterns are tried in priority order and
the first with at least one match wins; each match gives a formatting
capture and a whitespace-trimmed text capture. -/
def extract_slide_text (rtf : PyStr) : List FormattedLine :=
  let mk := fun (gs : List (PyStr × PyStr)) =>
    gs.map (fun g => FormattedLine.mk g.1 (pyStrip g.2))
  let m1 := reFindall tryP1 rtf
  if m1 ≠ [] then mk m1 else
  let m2 := reFindall tryP2 rtf
  if m2 ≠ [] then mk m2 else
  let m3 := reFindall tryP3 rtf
  if m3 ≠ [] then mk m3 else
  let m4 := reFindall tryP4 rtf
  if m4 ≠ [] then mk m4 else []

def findFsGo : Nat → PyStr → List Nat
  | 0, _ => []
  | _ + 1, [] => []
  | fuel + 1, c :: rest =>
    if c = '\\' then
      match rest with
      | 'f' :: 's' :: r2 =>
        if r2.takeWhile Char.isDigit = [] then findFsGo fuel rest
        else digitsToNat (r2.takeWhile Char.isDigit) :: findFsGo fuel (r2.dropWhile Char.isDigit)
      | _ => findFsGo fuel rest
    else findFsGo fuel rest

/-- `re.findall(r"\\fs(\d+)", s)` with each capture converted to `int`. -/
def findFs (s : PyStr) : List Nat := findFsGo s.length s

/-- Insert into a sorted duplicate-free list (model of Python `set.add`). -/
def insortNoDup (n : Nat) : List Nat → List Nat
  | [] => [n]
  | m :: rest =>
    if n < m then n :: m :: rest
    else if n = m then m :: rest
    else m :: insortNoDup n rest

/-- Model of the Python set `{int(size) for size in findall(...)}`. -/
def sortedSizes (l : List Nat) : List Nat := l.foldr insortNoDup []

/-- `choice(prompt, choices)`: read an input line, convert to `int`; retry
on a parse failure, a nonpositive number, or an out-of-range index (all
caught by the function's own `except`); `Except.error` models the
`EOFError` of reading exhausted input, which is not caught. -/
def choice {α : Type} (choices : List α) : Streams → Except Streams (α × Streams)
  | [] => .error []
  | ans :: rest =>
    match pyParseInt ans with
    | none => choice choices rest
    | some n =>
      if n - 1 < 0 then choice choices rest
      else
        match choices.get? (n - 1).toNat with
        | some c => .ok (c, rest)
        | none => choice choices rest

/-- `extract_font_size(text, default_font_size)`: the second result
component records the candidate list of each `choice` call made. -/
def extract_font_size (rtf : PyStr) (default_font_size : Option Nat) (stdin : Streams) :
    Except Streams ((Nat × List (List Nat)) × Streams) :=
  let font_sizes := sortedSizes (findFs rtf)
  match font_sizes with
  | [] => .ok ((180, []), stdin)
  | [s] => .ok ((s, []), stdin)
  | _ =>
    match default_font_size with
    | some d =>
      if font_sizes.contains d then .ok ((d, []), stdin)
      else
        let cands := (insortNoDup d font_sizes).map (fun size => size / 2)
        (choice cands stdin).map (fun r => ((r.1 * 2, [cands]), r.2))
    | none =>
      let cands := font_sizes.map (fun size => size / 2)
      (choice cands stdin).map (fun r => ((r.1 * 2, [cands]), r.2))

/-- `ActionType` enum of `main.py` with its protobuf wire values. -/
inductive ActionType where
  | STAGE
  | MEDIA
  | CLEAR
  | MESSAGE
  | PRESENTATION_SLIDE
  deriving DecidableEq, Repr, Inhabited

/-- `ActionType(n)`: `none` models the `ValueError` raised on a wire value
outside the enum. -/
def toActionType : Nat → Option ActionType
  | 1 => some .STAGE
  | 2 => some .MEDIA
  | 5 => some .CLEAR
  | 8 => some .MESSAGE
  | 11 => some .PRESENTATION_SLIDE
  | _ => none

/-- A cue action.  For a slide action, `rtf` is the embedded markup blob of
`slide.presentation.base_slide.elements[0].element.text.rtf_data`. -/
structure Action where
  type : Nat
  isEnabled : Bool := false
  rtf : PyStr := []
  deriving DecidableEq, Repr, Inhabited

structure Cue where
  uuid : PyStr := []
  isEnabled : Bool := false
  actions : List Action := []
  deriving DecidableEq, Repr, Inhabited

/-- One entry of a cue group's `cue_identifiers`.  `extra` stands for the
protobuf fields other than `string`, copied verbatim by `CopyFrom`. -/
structure CueIdentifier where
  string : PyStr := []
  extra : Nat := 0
  deriving DecidableEq, Repr, Inhabited

/-- A presentation: a cue sequence and cue groups, each an identifier
sequence (other protobuf fields are not touched by the editor). -/
structure Presentation where
  cues : List Cue := []
  cue_groups : List (List CueIdentifier) := []
  deriving DecidableEq, Repr, Inhabited

/-- The end-marker transformation of `process_slide` (lines 217–221):
rewrite the last line to a bare dash when the first cleaned line is the
ellipsis token, otherwise append a dash line and prepend a blank line. -/
def dashTransform (lines : List FormattedLine) : List FormattedLine :=
  if lines.head!.text = pyOf "..." then
    lines.dropLast ++ [⟨[], ['-']⟩]
  else
    ({} : FormattedLine) :: (lines ++ [⟨[], ['-']⟩])

/-- The tail of `process_slide`'s keep path (lines 216–224): apply the
end-marker transformation when this is the original last slide and the
flag is on, regenerate the markup and keep the cue. -/
def process_slide_finish (cue : Cue) (a : Action) (rest : List Action)
    (slide_index total_slides : Nat) (add_dash_to_last : Bool)
    (cleaned_lines : List FormattedLine) (font_size : Nat) (st2 : Streams) :
    Except Streams ((Cue × Option Nat × Bool) × Streams) :=
  .ok (({ cue with actions :=
            { a with isEnabled := true,
                     rtf := generate_slide_rtf
                       (if slide_index = total_slides - 1 ∧ add_dash_to_last then
                          dashTransform cleaned_lines
                        else cleaned_lines) font_size } :: rest },
         some font_size, true), st2)

/-- `process_slide`: processes `cue.actions[0]`, returning the possibly
mutated cue, the font size to remember (`int | None`), and the keep flag.
`Except.error` carries the unread console input when an exception
(`IndexError`, `ValueError`, `AttributeError`, `EOFError`) escapes. -/
def process_slide (cue : Cue) (slide_index total_slides : Nat) (song : Option Song)
    (presentation_name : PyStr) (default_font_size : Option Nat)
    (add_dash_to_last check_single_lines : Bool) (stdin : Streams) :
    Except Streams ((Cue × Option Nat × Bool) × Streams) :=
  match cue.actions with
  | [] => .error stdin
  | a :: rest =>
    match toActionType a.type with
    | none => .error stdin
    | some t =>
      if t ≠ ActionType.PRESENTATION_SLIDE then .ok ((cue, default_font_size, true), stdin)
      else
        match extract_font_size a.rtf default_font_size stdin with
        | .error st => .error st
        | .ok ((font_size, _), st1) =>
          match cleanup_slide_text (extract_slide_text a.rtf) false song with
          | none => .error st1
          | some cleaned_lines =>
            if cleaned_lines = [] then
              .ok (({ cue with actions := { a with isEnabled := true } :: rest },
                     default_font_size, false), st1)
            else
              if check_single_lines ∧ cleaned_lines.length = 1 then
                match st1 with
                | [] => .error []
                | ans :: st2 =>
                  if ans = [] ∨ (ans.head?.map Char.toLower) ≠ some 'n' then
                    .ok (({ cue with actions := { a with isEnabled := true } :: rest },
                           default_font_size, false), st2)
                  else
                    process_slide_finish cue a rest slide_index total_slides
                      add_dash_to_last cleaned_lines font_size st2
              else
                process_slide_finish cue a rest slide_index total_slides
                  add_dash_to_last cleaned_lines font_size st1

/-- The inner action loop of `cleanup_slides` on the reversed action list:
walking from the last action towards the first, `Media`/`Message`/`Clear`/
`Stage` actions are deleted, an unknown type raises (`none`), and the scan
stops at the first slide action found (`some (some remaining)`); if no
slide action exists the result is `some none`. -/
def scanRev : List Action → Option (Option (List Action))
  | [] => some none
  | a :: rest =>
    match toActionType a.type with
    | none => none
    | some ActionType.PRESENTATION_SLIDE => some (some ((a :: rest).reverse))
    | some _ => scanRev rest

def scanActions (acts : List Action) : Option (Option (List Action)) :=
  scanRev acts.reverse

structure SweepState where
  kept_cues : List Cue := []
  kept_identifiers : List CueIdentifier := []
  default_font_size : Option Nat := none
  stdin : Streams := []
  deriving DecidableEq, Repr, Inhabited

/-- Prepend `identifiers[i]` to the kept identifiers when the index is in
range (the `if i < len(identifiers)` guard of `cleanup_slides`). -/
def keptIds (identifiers : List CueIdentifier) (i : Nat) (ki : List CueIdentifier) :
    List CueIdentifier :=
  match identifiers[i]? with
  | some idf => idf :: ki
  | none => ki

/-- One iteration of the cue loop of `cleanup_slides` (iteration order is
from the last cue to the first; kept entries are prepended).  The cue is
enabled, its action list is scanned from the end, and on a kept slide the
remembered default font size becomes the returned one. -/
def sweepStep (identifiers : List CueIdentifier) (song : Option Song)
    (presentation_name : PyStr) (total_slides : Nat)
    (add_dash_to_last check_single_lines : Bool) (ic : Nat × Cue) (st : SweepState) :
    Except Streams SweepState :=
  match scanActions ic.2.actions with
  | none => .error st.stdin
  | some none => .ok st
  | some (some acts) =>
    match process_slide { uuid := ic.2.uuid, isEnabled := true, actions := acts }
        ic.1 total_slides song presentation_name st.default_font_size
        add_dash_to_last check_single_lines st.stdin with
    | .error st' => .error st'
    | .ok ((c', fs, keep), st') =>
      if keep then
        .ok { kept_cues := c' :: st.kept_cues,
              kept_identifiers := keptIds identifiers ic.1 st.kept_identifiers,
              default_font_size := fs,
              stdin := st' }
      else
        .ok { st with stdin := st' }

/-- The cue loop, iterating from the last cue down to the first.  The list
is the forward enumeration; the recursion processes the tail (higher
indices) before the head, like the reverse `for` loop. -/
def sweepGo (identifiers : List CueIdentifier) (song : Option Song)
    (presentation_name : PyStr) (total_slides : Nat)
    (add_dash_to_last check_single_lines : Bool) :
    List (Nat × Cue) → SweepState → Except Streams SweepState
  | [], st => .ok st
  | ic :: rest, st =>
    match sweepGo identifiers song presentation_name total_slides
        add_dash_to_last check_single_lines rest st with
    | .error st' => .error st'
    | .ok st' =>
      sweepStep identifiers song presentation_name total_slides
        add_dash_to_last check_single_lines ic st'

/-- `cleanup_slides(pres, song, presentation_name, add_dash_to_last,
check_single_lines)`: sweep all cues, then rebuild `cues` from the kept
cues and `cue_groups` as a single group holding the kept identifiers. -/
def cleanup_slides (pres : Presentation) (song : Option Song)
    (presentation_name : PyStr := []) (add_dash_to_last : Bool := true)
    (check_single_lines : Bool := false) (stdin : Streams := []) :
    Except Streams (Presentation × Streams) :=
  match sweepGo pres.cue_groups.flatten song presentation_name pres.cues.length
      add_dash_to_last check_single_lines pres.cues.enum {} with
  | .error st => .error st
  | .ok st =>
    .ok ({ cues := st.kept_cues, cue_groups := [st.kept_identifiers] }, st.stdin)

/-- Python `list.insert(index, x)` (index clamped to the list's length). -/
def pyInsertAt {α : Type} (index : Nat) (x : α) (l : List α) : List α :=
  l.take index ++ x :: l.drop index

/-- `insert_cue(pres, cue, index)`. -/
def insert_cue (pres : Presentation) (cue : Cue) (index : Nat) : Presentation :=
  let cues := pyInsertAt index cue pres.cues
  let groups := if pres.cue_groups = [] then [[]] else pres.cue_groups
  match groups with
  | [] => { cues := cues, cue_groups := [] }
  | g0 :: gs =>
    if g0 ≠ [] then
      let template := g0.headD ({} : CueIdentifier)
      let new_id : CueIdentifier := { template with string := cue.uuid }
      let withNew := g0 ++ [new_id]
      let ids := pyInsertAt index (withNew.getLastD ({} : CueIdentifier)) withNew.dropLast
      { cues := cues, cue_groups := ids :: gs }
    else
      { cues := cues, cue_groups := [({ string := cue.uuid } : CueIdentifier)] :: gs }

/-- The per-file outcome inside the `process_cleanup` batch loop. -/
inductive CleanupOutcome where
  | skipped
  | updated (p : Presentation)
  | failed
  deriving DecidableEq, Repr, Inhabited

/-- The batch loop of `process_cleanup`: the body of the loop is wrapped in
`try`/`except Exception`, so a failing document yields a `failed` outcome
and the loop continues with the next document. -/
def process_cleanup (docs : List Presentation) (add_end_dash check_single_lines : Bool)
    (stdin : Streams) : List CleanupOutcome × Streams :=
  match docs with
  | [] => ([], stdin)
  | p :: rest =>
    let outcome :=
      if p.cues = [] then (CleanupOutcome.skipped, stdin)
      else
        match cleanup_slides p none [] add_end_dash check_single_lines stdin with
        | .ok (p', st') => (CleanupOutcome.updated p', st')
        | .error st' => (CleanupOutcome.failed, st')
    let tailRes := process_cleanup rest add_end_dash check_single_lines outcome.2
    (outcome.1 :: tailRes.1, tailRes.2)

/-- `process_single_presentation` for a Song content value on the
`add_infoslide = False` path (the infoslide branch builds a cue from an
external template file and is outside this model).  A `none` result is the
"no slides, skip" early return. -/
def process_single_presentation (pres : Presentation) (content : Song) (stdin : Streams) :
    Except Streams (Option Presentation × Streams) :=
  if pres.cues = [] then .ok (none, stdin)
  else
    let presentation_name :=
      if content.book ≠ [] ∧ content.number ≠ 0 then
        content.book ++ ' ' :: padNum3 content.number
      else content.title
    match cleanup_slides pres (some content) presentation_name true false stdin with
    | .error st => .error st
    | .ok (p', st) => .ok (some p', st)

/-- The batch loop of `process_songs` over already loaded documents and
their contents.  There is no `try`/`except` around the body: an exception
aborts the loop, leaving the remaining documents unprocessed (the Boolean
records whether the batch aborted). -/
def process_songs (docs : List (Presentation × Song)) (stdin : Streams) :
    List (Option Presentation) × Streams × Bool :=
  match docs with
  | [] => ([], stdin, false)
  | (p, c) :: rest =>
    match process_single_presentation p c stdin with
    | .error st => ([], st, true)
    | .ok (o, st) =>
      let r := process_songs rest st
      (o :: r.1, r.2.1, r.2.2)

/-- The batch loop of `process_bible_texts` over loaded documents: like
`process_songs` it has no `try`/`except`; the cleanup sweep is invoked with
`song = None` because the content is not a `Song`. -/
def process_bible_texts (docs : List (Presentation × PyStr)) (stdin : Streams) :
    List (Option Presentation) × Streams × Bool :=
  match docs with
  | [] => ([], stdin, false)
  | (p, reference) :: rest =>
    let one : Except Streams (Option Presentation × Streams) :=
      if p.cues = [] then .ok (none, stdin)
      else
        match cleanup_slides p none reference true false stdin with
        | .error st => .error st
        | .ok (p', st) => .ok (some p', st)
    match one with
    | .error st => ([], st, true)
    | .ok (o, st) =>
      let r := process_bible_texts rest st
      (o :: r.1, r.2.1, r.2.2)

instance {ε α : Type} [DecidableEq ε] [DecidableEq α] : DecidableEq (Except ε α)
  | .error x, .error y =>
    match decEq x y with
    | isTrue h => isTrue (by rw [h])
    | isFalse h => isFalse (by intro c; injection c; contradiction)
  | .error _, .ok _ => isFalse (by intro c; exact Except.noConfusion c)
  | .ok _, .error _ => isFalse (by intro c; exact Except.noConfusion c)
  | .ok x, .ok y =>
    match decEq x y with
    | isTrue h => isTrue (by rw [h])
    | isFalse h => isFalse (by intro c; injection c; contradiction)

/-! ### General lemmas -/

theorem map_id_of_mem {α : Type} {f : α → α} {l : List α} (h : ∀ x ∈ l, f x = x) :
    l.map f = l := by
  induction l with
  | nil => rfl
  | cons a t ih =>
    simp only [List.map_cons, h a (by simp)]
    rw [ih fun x hx => h x (by simp [hx])]

theorem choice_mem {α : Type} {choices : List α} {stdin : Streams} {a : α} {st' : Streams}
    (h : choice choices stdin = .ok (a, st')) : a ∈ choices := by
  induction stdin with
  | nil => simp [choice] at h
  | cons s rest ih =>
    unfold choice at h
    split at h
    · exact ih h
    · split at h
      · exact ih h
      · split at h
        next c heq =>
          injection h with h1
          injection h1 with h2 h3
          subst h2
          exact List.get?_mem heq
        · exact ih h

/-! ### Claim theorems: line cleaner and font-size resolver -/

/-- C2: the claim says the Content argument of the line cleaner is optional
in body mode.  The code evaluates `song.book` whenever `intro` is false, so
body-mode cleanup with `song is None` raises `AttributeError` instead of
returning a line list; this theorem evaluates the embedded code at the
failing input. -/
theorem C2_body_mode_without_content_raises :
    cleanup_slide_text [⟨[], pyOf "Hello"⟩] false none = none := by decide

/-- C7: a markup blob whose distinct font-size token set is `{180}`
resolves to `180` with no decision-provider call and untouched input; a
blob with token set `{180, 200}` and no remembered default makes exactly
one decision-provider call offering the halved candidates `{90, 100}` and
returns the selected answer doubled (the selection being one of the
offered candidates). -/
theorem C7_font_size_resolution :
    (∀ (rtf : PyStr) (dfs : Option Nat) (stdin : Streams),
      sortedSizes (findFs rtf) = [180] →
      extract_font_size rtf dfs stdin = .ok ((180, []), stdin)) ∧
    (∀ (rtf : PyStr) (stdin : Streams) (r : Nat × Streams),
      sortedSizes (findFs rtf) = [180, 200] →
      choice [90, 100] stdin = .ok r →
      extract_font_size rtf none stdin = .ok ((r.1 * 2, [[90, 100]]), r.2) ∧
        (r.1 = 90 ∨ r.1 = 100)) := by
  constructor
  · intro rtf dfs stdin hsz
    unfold extract_font_size
    rw [hsz]
  · intro rtf stdin r hsz hc
    unfold extract_font_size
    rw [hsz]
    have hcand : ([180, 200] : List Nat).map (fun size => size / 2) = [90, 100] := by decide
    simp only [hcand, hc]
    refine ⟨rfl, ?_⟩
    have := choice_mem hc
    simpa using this

/-- Closed witness for C7 at concrete markup blobs. -/
theorem C7_font_size_resolution_witness :
    extract_font_size (pyOf "\\fs180 a\\fs180") none [] = .ok ((180, []), []) ∧
    extract_font_size (pyOf "\\fs180 a\\fs200") none [pyOf "1"] =
      .ok ((180, [[90, 100]]), []) := by
  constructor
  · exact C7_font_size_resolution.1 (pyOf "\\fs180 a\\fs180") none [] (by decide)
  · exact (C7_font_size_resolution.2 (pyOf "\\fs180 a\\fs200") [pyOf "1"] (90, [])
      (by decide) (by decide)).1

/-! ### Claim theorems: batch loops -/

/-- C4 (amended part): the `process_cleanup` batch loop isolates failures —
every document of the batch yields an outcome (skipped, updated or a
caught-and-logged failure), whatever happens to any single document. -/
theorem C4_cleanup_batch_isolates_failures :
    ∀ (docs : List Presentation) (add_end_dash check_single_lines : Bool) (stdin : Streams),
      (process_cleanup docs add_end_dash check_single_lines stdin).1.length = docs.length := by
  intro docs
  induction docs with
  | nil => intro _ _ _; rfl
  | cons p rest ih =>
    intro d cs stdin
    unfold process_cleanup
    simp only [List.length_cons]
    rw [ih]

def badDocC4 : Presentation :=
  { cues := [{ uuid := pyOf "bad", actions := [{ type := 3 }] }],
    cue_groups := [[{ string := pyOf "ib" }]] }

def goodDocC4 : Presentation :=
  { cues := [{ uuid := pyOf "good",
               actions := [{ type := 11, rtf := pyOf "\\par\\b0\\i0\\ul0\\strike0 Hej\\par" }] }],
    cue_groups := [[{ string := pyOf "ig" }]] }

/-- C4 (counterexample): the `process_songs` batch loop has no
`try`/`except`: a document whose processing raises (here: an action with
the unknown type value 3, on which `ActionType(...)` raises `ValueError`)
aborts the batch, and the following document — which processes fine on its
own — is never processed. -/
theorem C4_songs_batch_aborts_counterexample :
    (process_songs [(badDocC4, {}), (goodDocC4, {})] []).1 = [] ∧
    (process_songs [(badDocC4, {}), (goodDocC4, {})] []).2.2 = true ∧
    (process_songs [(goodDocC4, {})] []).1.length = 1 ∧
    (process_songs [(goodDocC4, {})] []).2.2 = false := by decide

/-! ### Sweep specification lemmas -/

/-- A cue that carries at least one slide-kind action. -/
def hasSlideAction (c : Cue) : Prop :=
  ∃ a ∈ c.actions, toActionType a.type = some ActionType.PRESENTATION_SLIDE

instance (c : Cue) : Decidable (hasSlideAction c) := by
  unfold hasSlideAction; infer_instance

/-- A cue whose final action is of slide kind. -/
def lastActionSlide (c : Cue) : Prop :=
  ∃ a, c.actions.getLast? = some a ∧ toActionType a.type = some ActionType.PRESENTATION_SLIDE

instance (c : Cue) : Decidable (lastActionSlide c) := by
  unfold lastActionSlide
  cases c.actions.getLast? with
  | none => exact .isFalse (by simp)
  | some a => exact decidable_of_iff (toActionType a.type = some ActionType.PRESENTATION_SLIDE) (by simp)

theorem process_slide_finish_ok {cue : Cue} {a : Action} {rest : List Action}
    {i tot : Nat} {ad : Bool} {cleaned : List FormattedLine} {fsz : Nat} {st2 : Streams}
    {c' : Cue} {fs : Option Nat} {keep : Bool} {st' : Streams}
    (h : process_slide_finish cue a rest i tot ad cleaned fsz st2 =
      .ok ((c', fs, keep), st')) :
    c' = { cue with actions :=
            { a with isEnabled := true,
                     rtf := generate_slide_rtf
                       (if i = tot - 1 ∧ ad then dashTransform cleaned else cleaned)
                       fsz } :: rest } ∧
    fs = some fsz ∧ keep = true ∧ st' = st2 := by
  simp only [process_slide_finish, Except.ok.injEq, Prod.mk.injEq] at h
  exact ⟨h.1.1.symm, h.1.2.1.symm, h.1.2.2.symm, h.2.symm⟩

theorem process_slide_shape {cue : Cue} {i tot : Nat} {song : Option Song} {pn : PyStr}
    {dfs : Option Nat} {ad cs : Bool} {st : Streams} {c' : Cue} {fs : Option Nat}
    {keep : Bool} {st' : Streams}
    (h : process_slide cue i tot song pn dfs ad cs st = .ok ((c', fs, keep), st')) :
    c'.uuid = cue.uuid ∧ c'.isEnabled = cue.isEnabled ∧
    c'.actions.length = cue.actions.length ∧
    ∀ k : Nat, (c'.actions[k]?).map Action.type = (cue.actions[k]?).map Action.type := by
  have base : ∀ (a : Action) (rest : List Action) (a2 : Action),
      cue.actions = a :: rest →
      c' = { cue with actions := a2 :: rest } → a2.type = a.type →
      c'.uuid = cue.uuid ∧ c'.isEnabled = cue.isEnabled ∧
      c'.actions.length = cue.actions.length ∧
      ∀ k : Nat, (c'.actions[k]?).map Action.type =
        (cue.actions[k]?).map Action.type := by
    intro a rest a2 heq hc' hty
    subst hc'
    refine ⟨rfl, rfl, by simp [heq], ?_⟩
    intro k
    cases k with
    | zero => simp [heq, hty]
    | succ n => simp [heq]
  unfold process_slide at h
  split at h
  · exact absurd h (by simp)
  next a rest heq =>
    split at h
    · exact absurd h (by simp)
    next t ht =>
      split at h
      · injection h with h1
        injection h1 with h2 h3
        have hc : c' = cue := (congrArg Prod.fst h2).symm
        subst hc
        exact ⟨rfl, rfl, rfl, fun _ => rfl⟩
      · split at h
        · exact absurd h (by simp)
        next fsz rec st1 hfs =>
          split at h
          · exact absurd h (by simp)
          next cleaned hcl =>
            split at h
            · injection h with h1
              injection h1 with h2 h3
              exact base a rest _ heq (congrArg Prod.fst h2).symm rfl
            · split at h
              · split at h
                · exact absurd h (by simp)
                · split at h
                  · injection h with h1
                    injection h1 with h2 h3
                    exact base a rest _ heq (congrArg Prod.fst h2).symm rfl
                  · exact base a rest _ heq (process_slide_finish_ok h).1 rfl
              · exact base a rest _ heq (process_slide_finish_ok h).1 rfl

theorem scanRev_slide {racts res : List Action} (h : scanRev racts = some (some res)) :
    ∃ a, res.getLast? = some a ∧ toActionType a.type = some ActionType.PRESENTATION_SLIDE ∧
      a ∈ racts := by
  induction racts with
  | nil => simp [scanRev] at h
  | cons x r ih =>
    unfold scanRev at h
    split at h
    · exact absurd h (by simp)
    · injection h with h1
      injection h1 with h2
      refine ⟨x, ?_, by assumption, by simp⟩
      rw [← h2, List.getLast?_reverse]
      rfl
    · obtain ⟨a, h1, h2, h3⟩ := ih h
      exact ⟨a, h1, h2, by simp [h3]⟩

theorem lastActionSlide_transfer {c c' : Cue}
    (hlen : c'.actions.length = c.actions.length)
    (hty : ∀ k : Nat, (c'.actions[k]?).map Action.type = (c.actions[k]?).map Action.type)
    (h : lastActionSlide c) : lastActionSlide c' := by
  obtain ⟨a, hga, hsl⟩ := h
  have hk := hty (c.actions.length - 1)
  rw [← List.getLast?_eq_getElem? c.actions, hga] at hk
  rcases hg' : c'.actions[c.actions.length - 1]? with _ | a'
  · rw [hg'] at hk
    exact absurd hk (by simp)
  · rw [hg'] at hk
    refine ⟨a', ?_, ?_⟩
    · rw [List.getLast?_eq_getElem? c'.actions, hlen]
      exact hg'
    · have hty' : a'.type = a.type := by injection hk
      rw [hty']
      exact hsl

theorem keptIds_eq (idents : List CueIdentifier) (i : Nat) (ki : List CueIdentifier) :
    keptIds idents i ki =
      (if i < idents.length then [idents.getD i ({} : CueIdentifier)] else []) ++ ki := by
  unfold keptIds
  rcases hgi : idents[i]? with _ | idf
  · have hge : idents.length ≤ i := List.getElem?_eq_none_iff.mp hgi
    simp [if_neg (not_lt.mpr hge)]
  · have hlt : i < idents.length := (List.getElem?_eq_some.mp hgi).1
    have hgd : idents.getD i ({} : CueIdentifier) = idf := by
      rw [List.getD_eq_getElem?_getD, hgi]
      rfl
    simp [if_pos hlt, hgd, hgi]

theorem sweepStep_spec {idents : List CueIdentifier} {song : Option Song} {pn : PyStr}
    {total : Nat} {ad cs : Bool} {i : Nat} {c : Cue} {st st' : SweepState}
    (h : sweepStep idents song pn total ad cs (i, c) st = .ok st') :
    (st'.kept_cues = st.kept_cues ∧ st'.kept_identifiers = st.kept_identifiers) ∨
    (∃ c', c'.uuid = c.uuid ∧ hasSlideAction c ∧ lastActionSlide c' ∧
      st'.kept_cues = c' :: st.kept_cues ∧
      st'.kept_identifiers =
        (if i < idents.length then [idents.getD i ({} : CueIdentifier)] else [])
          ++ st.kept_identifiers) := by
  unfold sweepStep at h
  split at h
  · exact absurd h (by simp)
  · injection h with h1
    rw [← h1]
    exact Or.inl ⟨rfl, rfl⟩
  next acts hscan =>
    split at h
    · exact absurd h (by simp)
    next c' fs keep st2 hps =>
      have hshape := process_slide_shape hps
      have hslide : ∃ a, acts.getLast? = some a ∧
          toActionType a.type = some ActionType.PRESENTATION_SLIDE ∧ a ∈ c.actions := by
        obtain ⟨a, h1, h2, h3⟩ := scanRev_slide hscan
        exact ⟨a, h1, h2, List.mem_reverse.mp h3⟩
      split at h
      · injection h with h1
        rw [← h1]
        refine Or.inr ⟨c', hshape.1, ?_, ?_, rfl, ?_⟩
        · obtain ⟨a, _, h2, h3⟩ := hslide
          exact ⟨a, h3, h2⟩
        · refine lastActionSlide_transfer hshape.2.2.1 hshape.2.2.2 ?_
          obtain ⟨a, h1', h2, _⟩ := hslide
          exact ⟨a, h1', h2⟩
        · exact keptIds_eq idents i st.kept_identifiers
      · injection h with h1
        rw [← h1]
        exact Or.inl ⟨rfl, rfl⟩

theorem sweepGo_spec {idents : List CueIdentifier} {song : Option Song} {pn : PyStr}
    {total : Nat} {ad cs : Bool} :
    ∀ (l : List (Nat × Cue)) (st st' : SweepState),
      sweepGo idents song pn total ad cs l st = .ok st' →
      (l.map Prod.fst).Pairwise (· < ·) →
      ∃ kept : List (Nat × Cue),
        (kept.map Prod.fst).Pairwise (· < ·) ∧
        (∀ p ∈ kept, ∃ c : Cue, (p.1, c) ∈ l ∧ p.2.uuid = c.uuid ∧ hasSlideAction c ∧
          lastActionSlide p.2) ∧
        st'.kept_cues = kept.map Prod.snd ++ st.kept_cues ∧
        st'.kept_identifiers =
          ((kept.map Prod.fst).filter (fun j => decide (j < idents.length))).map
            (fun j => idents.getD j ({} : CueIdentifier)) ++ st.kept_identifiers := by
  intro l
  induction l with
  | nil =>
    intro st st' h _
    refine ⟨[], by simp, by simp, ?_, ?_⟩ <;> · injection h with h1; rw [h1]; simp
  | cons ic rest ih =>
    intro st st' h hpw
    obtain ⟨i, c⟩ := ic
    unfold sweepGo at h
    split at h
    · exact absurd h (by simp)
    next st1 hrest =>
      have hpwr : (rest.map Prod.fst).Pairwise (· < ·) :=
        (List.pairwise_cons.mp (by simpa using hpw)).2
      have hlt : ∀ j ∈ rest.map Prod.fst, i < j :=
        (List.pairwise_cons.mp (by simpa using hpw)).1
      obtain ⟨kept1, hkpw, hkmem, hkc, hki⟩ := ih st st1 hrest hpwr
      rcases sweepStep_spec h with ⟨hc0, hi0⟩ | ⟨c', huuid, hslide, hlast, hc1, hi1⟩
      · refine ⟨kept1, hkpw, ?_, by rw [hc0, hkc], by rw [hi0, hki]⟩
        intro p hp
        obtain ⟨c0, hmem, h1, h2, h3⟩ := hkmem p hp
        exact ⟨c0, by simp [hmem], h1, h2, h3⟩
      · refine ⟨(i, c') :: kept1, ?_, ?_, ?_, ?_⟩
        · simp only [List.map_cons, List.pairwise_cons]
          refine ⟨?_, hkpw⟩
          intro j hj
          obtain ⟨p, hp, rfl⟩ := List.mem_map.mp hj
          obtain ⟨c0, hmem, _, _, _⟩ := hkmem p hp
          exact hlt p.1 (List.mem_map.mpr ⟨(p.1, c0), hmem, rfl⟩)
        · intro p hp
          rcases List.mem_cons.mp hp with rfl | hp'
          · exact ⟨c, List.mem_cons_self _ _, huuid, hslide, hlast⟩
          · obtain ⟨c0, hmem, h1, h2, h3⟩ := hkmem p hp'
            exact ⟨c0, by simp [hmem], h1, h2, h3⟩
        · rw [hc1, hkc]
          rfl
        · rw [hi1, hki]
          simp only [List.map_cons, List.filter_cons]
          by_cases hil : i < idents.length
          · simp [hil]
          · simp [hil]

theorem pyInsertAt_length {α : Type} (index : Nat) (x : α) (l : List α) :
    (pyInsertAt index x l).length = l.length + 1 := by
  simp [pyInsertAt]
  omega

/-! ### Claim theorems: the parallel-lists invariant -/

/-- C1 (amended): after a sweep of a document with at least as many
flattened identifiers as cues, the document has exactly one identifier
group, `len(cues) = len(identifiers)`, and position `k` of the rebuilt
identifier sequence is the original identifier at the original index of the
cue now at position `k` (the kept original indices are strictly
increasing).  Insertion into a document with exactly one identifier group
whose length matches the cue count splices the cue and a fresh identifier
carrying the cue's uuid at the same index, preserving both lengths and the
relative order of all other entries. -/
theorem C1_parallel_lists_invariant :
    (∀ (pres : Presentation) (song : Option Song) (pn : PyStr) (ad cs : Bool)
        (stdin : Streams) (post : Presentation) (st' : Streams),
      pres.cues.length ≤ pres.cue_groups.flatten.length →
      cleanup_slides pres song pn ad cs stdin = .ok (post, st') →
      post.cue_groups.length = 1 ∧
      post.cues.length = post.cue_groups.flatten.length ∧
      ∃ js : List Nat, js.Pairwise (· < ·) ∧ (∀ j ∈ js, j < pres.cues.length) ∧
        post.cues.length = js.length ∧
        post.cue_groups =
          [js.map (fun j => pres.cue_groups.flatten.getD j ({} : CueIdentifier))] ∧
        ∀ k : Nat, k < js.length →
          (post.cues.getD k ({} : Cue)).uuid =
            (pres.cues.getD (js.getD k 0) ({} : Cue)).uuid) ∧
    (∀ (pres : Presentation) (cue : Cue) (index : Nat) (g : List CueIdentifier),
      pres.cue_groups = [g] → g.length = pres.cues.length →
      ∃ newId : CueIdentifier, newId.string = cue.uuid ∧
        insert_cue pres cue index =
          { cues := pyInsertAt index cue pres.cues,
            cue_groups := [pyInsertAt index newId g] } ∧
        (insert_cue pres cue index).cue_groups.length = 1 ∧
        (insert_cue pres cue index).cues.length =
          (insert_cue pres cue index).cue_groups.flatten.length) := by
  constructor
  · intro pres song pn ad cs stdin post st' hle h
    unfold cleanup_slides at h
    split at h
    · exact absurd h (by simp)
    next st hsweep =>
      injection h with h1
      injection h1 with h2 h3
      obtain ⟨kept, hkpw, hkmem, hkc, hki⟩ := sweepGo_spec pres.cues.enum {} st hsweep
        (by rw [List.enum_map_fst]; exact List.sorted_lt_range _)
      have hbound : ∀ p ∈ kept, p.1 < pres.cues.length := by
        intro p hp
        obtain ⟨c0, hmem, _, _, _⟩ := hkmem p hp
        have := List.mk_mem_enum_iff_getElem?.mp hmem
        exact (List.getElem?_eq_some.mp this).1
      have hfil : (kept.map Prod.fst).filter
          (fun j => decide (j < pres.cue_groups.flatten.length)) = kept.map Prod.fst := by
        refine List.filter_eq_self.mpr ?_
        intro j hj
        obtain ⟨p, hp, rfl⟩ := List.mem_map.mp hj
        exact decide_eq_true (lt_of_lt_of_le (hbound p hp) hle)
      have hpost : post = { cues := st.kept_cues, cue_groups := [st.kept_identifiers] } :=
        h2.symm
      subst hpost
      simp only [SweepState.kept_cues, SweepState.kept_identifiers] at hkc hki
      refine ⟨by simp, ?_, kept.map Prod.fst, hkpw, ?_, ?_, ?_, ?_⟩
      · show st.kept_cues.length = List.length (List.flatten [st.kept_identifiers])
        rw [hkc, hki, hfil]
        simp only [List.flatten_cons, List.flatten_nil, List.append_nil, List.length_map,
          List.length_append, List.length_nil]
      · intro j hj
        obtain ⟨p, hp, rfl⟩ := List.mem_map.mp hj
        exact hbound p hp
      · show st.kept_cues.length = (kept.map Prod.fst).length
        rw [hkc]
        simp
      · show [st.kept_identifiers] = _
        rw [hki, hfil]
        simp only [List.append_nil]
      · intro k hk
        simp only [List.length_map] at hk
        have hget : kept[k]? = some (kept.get ⟨k, hk⟩) := List.getElem?_eq_getElem hk
        have h1' : st.kept_cues.getD k ({} : Cue) = (kept.get ⟨k, hk⟩).2 := by
          simp [hkc, List.getD_eq_getElem?_getD, List.getElem?_append_left,
            List.getElem?_map, hget, hk]
        have h2' : (kept.map Prod.fst).getD k 0 = (kept.get ⟨k, hk⟩).1 := by
          simp [List.getD_eq_getElem?_getD, List.getElem?_map, hget]
        obtain ⟨c0, hmem, huuid, _, _⟩ := hkmem (kept.get ⟨k, hk⟩) (kept.get_mem k hk)
        have hc0 : pres.cues[(kept.get ⟨k, hk⟩).1]? = some c0 :=
          List.mk_mem_enum_iff_getElem?.mp hmem
        simp only [SweepState.kept_cues]
        rw [h1', h2', huuid, List.getD_eq_getElem?_getD, hc0]
        rfl
  · intro pres cue index g hg hlen
    cases g with
    | nil =>
      refine ⟨({ string := cue.uuid } : CueIdentifier), rfl, ?_, ?_, ?_⟩
      · simp [insert_cue, hg, pyInsertAt]
      · simp [insert_cue, hg]
      · have hnil : pres.cues = [] := List.length_eq_zero.mp hlen.symm
        simp [insert_cue, hg, hnil, pyInsertAt]
    | cons t g' =>
      have hcat : (t :: (g' ++ [({ t with string := cue.uuid } : CueIdentifier)])).getLast? =
          some ({ t with string := cue.uuid } : CueIdentifier) := by
        rw [← List.cons_append]
        exact List.getLast?_concat _
      have hdrop : (t :: (g' ++ [({ t with string := cue.uuid } : CueIdentifier)])).dropLast =
          t :: g' := by
        rw [← List.cons_append]
        exact List.dropLast_concat
      refine ⟨({ t with string := cue.uuid } : CueIdentifier), rfl, ?_, ?_, ?_⟩
      · simp [insert_cue, hg, hcat, hdrop]
      · simp [insert_cue, hg, hcat, hdrop]
      · simp [insert_cue, hg, hcat, hdrop, pyInsertAt_length, pyInsertAt, ← hlen]

def presC1 : Presentation := { cues := [{ uuid := pyOf "c0" }], cue_groups := [[]] }

/-- C1 (counterexample): the claim as stated quantifies over any insertion.
Inserting into a document that has one cue but an empty identifier group
adds one cue and only one identifier, so `len(Cues) = 2` while
`len(Identifiers) = 1` afterwards. -/
theorem C1_counterexample :
    (insert_cue presC1 { uuid := pyOf "new" } 0).cues.length = 2 ∧
    (insert_cue presC1 { uuid := pyOf "new" } 0).cue_groups.flatten.length = 1 := by
  decide

def docC1 : Presentation :=
  { cues := [{ uuid := pyOf "a",
               actions := [{ type := 11, rtf := pyOf "\\par\\b0\\i0\\ul0\\strike0 Hej\\par" }] }],
    cue_groups := [[{ string := pyOf "i0" }]] }

def presC1ok : Presentation :=
  { cues := [{ uuid := pyOf "c0" }], cue_groups := [[{ string := pyOf "i0" }]] }

/-- Closed witness for C1 at a concrete document (sweep) and a concrete
consistent document (insertion). -/
theorem C1_parallel_lists_invariant_witness :
    (∀ (post : Presentation) (st' : Streams),
      cleanup_slides docC1 (some {}) [] true false [] = .ok (post, st') →
      post.cue_groups.length = 1 ∧
      post.cues.length = post.cue_groups.flatten.length ∧
      ∃ js : List Nat, js.Pairwise (· < ·) ∧ (∀ j ∈ js, j < docC1.cues.length) ∧
        post.cues.length = js.length ∧
        post.cue_groups =
          [js.map (fun j => docC1.cue_groups.flatten.getD j ({} : CueIdentifier))] ∧
        ∀ k : Nat, k < js.length →
          (post.cues.getD k ({} : Cue)).uuid =
            (docC1.cues.getD (js.getD k 0) ({} : Cue)).uuid) ∧
    (∃ newId : CueIdentifier, newId.string = pyOf "new" ∧
      insert_cue presC1ok { uuid := pyOf "new" } 0 =
        { cues := pyInsertAt 0 { uuid := pyOf "new" } presC1ok.cues,
          cue_groups := [pyInsertAt 0 newId [{ string := pyOf "i0" }]] } ∧
      (insert_cue presC1ok { uuid := pyOf "new" } 0).cue_groups.length = 1 ∧
      (insert_cue presC1ok { uuid := pyOf "new" } 0).cues.length =
        (insert_cue presC1ok { uuid := pyOf "new" } 0).cue_groups.flatten.length) := by
  constructor
  · intro post st' h
    exact C1_parallel_lists_invariant.1 docC1 (some {}) [] true false [] post st'
      (by decide) h
  · exact C1_parallel_lists_invariant.2 presC1ok { uuid := pyOf "new" } 0
      [{ string := pyOf "i0" }] rfl (by decide)

/-! ### Claim theorems: action deletion and cue removal -/

/-- C3 (amended): after a sweep, every surviving cue's final action is of
slide kind; hence every `Media`/`Message`/`Clear`/`Stage` action positioned
after the last slide action of a cue is deleted.  Such actions positioned
before the last slide action survive (see the counterexample), because the
action loop `break`s when it reaches the last slide action. -/
theorem C3_trailing_nonslide_actions_removed :
    ∀ (pres : Presentation) (song : Option Song) (pn : PyStr) (ad cs : Bool)
      (stdin : Streams) (post : Presentation) (st' : Streams),
      cleanup_slides pres song pn ad cs stdin = .ok (post, st') →
      ∀ c' ∈ post.cues, lastActionSlide c' := by
  intro pres song pn ad cs stdin post st' h c' hc'
  unfold cleanup_slides at h
  split at h
  · exact absurd h (by simp)
  next st hsweep =>
    injection h with h1
    injection h1 with h2 h3
    obtain ⟨kept, _, hkmem, hkc, _⟩ := sweepGo_spec pres.cues.enum {} st hsweep
      (by rw [List.enum_map_fst]; exact List.sorted_lt_range _)
    rw [← h2] at hc'
    simp only [SweepState.kept_cues] at hkc
    have : c' ∈ st.kept_cues := hc'
    rw [hkc] at this
    simp only [List.append_nil] at this
    obtain ⟨p, hp, rfl⟩ := List.mem_map.mp this
    exact (hkmem p hp).choose_spec.2.2.2

def docC3 : Presentation :=
  { cues := [{ uuid := pyOf "m",
               actions := [{ type := 2 },
                           { type := 11, rtf := pyOf "\\par\\b0\\i0\\ul0\\strike0 Hej\\par" }] }],
    cue_groups := [[{ string := pyOf "i0" }]] }

def postC3 : Presentation :=
  { cues := [{ uuid := pyOf "m", isEnabled := true,
               actions := [{ type := 2 },
                           { type := 11,
                             rtf := pyOf "\\par\\b0\\i0\\ul0\\strike0 Hej\\par" }] }],
    cue_groups := [[{ string := pyOf "i0" }]] }

/-- C3 (counterexample): a cue whose actions are `[Media, Slide]` survives
the sweep with the `Media` action still present: the action loop walks from
the end, finds the slide action first and `break`s, and `process_slide`
returns keep because `actions[0]` is not a slide action, so nothing else is
touched. -/
theorem C3_counterexample :
    cleanup_slides docC3 (some {}) [] false false [] = .ok (postC3, []) ∧
    ∃ c ∈ postC3.cues, ∃ a ∈ c.actions, toActionType a.type = some ActionType.MEDIA := by
  decide

/-- The surviving cue of `docC3` after the sweep. -/
def keptCueC3 : Cue :=
  { uuid := pyOf "m", isEnabled := true,
    actions := [{ type := 2 },
                { type := 11, rtf := pyOf "\\par\\b0\\i0\\ul0\\strike0 Hej\\par" }] }

/-- Closed witness for C3 at the concrete document `docC3`. -/
theorem C3_trailing_nonslide_actions_removed_witness : lastActionSlide keptCueC3 := by
  refine C3_trailing_nonslide_actions_removed docC3 (some {}) [] false false [] postC3 []
    (by decide) keptCueC3 ?_
  decide

/-- C10: a cue with no slide-kind action is removed entirely by the sweep:
the original indices of the surviving cues all carry a slide-kind action,
and the rebuilt identifier group consists exactly of the identifiers at
those surviving indices, so a slide-less cue's index contributes neither a
cue nor an identifier. -/
theorem C10_slide_less_cues_removed :
    ∀ (pres : Presentation) (song : Option Song) (pn : PyStr) (ad cs : Bool)
      (stdin : Streams) (post : Presentation) (st' : Streams),
      cleanup_slides pres song pn ad cs stdin = .ok (post, st') →
      ∃ js : List Nat, js.Pairwise (· < ·) ∧
        post.cues.length = js.length ∧
        post.cue_groups =
          [(js.filter (fun j => decide (j < pres.cue_groups.flatten.length))).map
            (fun j => pres.cue_groups.flatten.getD j ({} : CueIdentifier))] ∧
        (∀ j ∈ js, j < pres.cues.length ∧ hasSlideAction (pres.cues.getD j ({} : Cue))) ∧
        (∀ i : Nat, i < pres.cues.length →
          ¬ hasSlideAction (pres.cues.getD i ({} : Cue)) → i ∉ js) := by
  intro pres song pn ad cs stdin post st' h
  unfold cleanup_slides at h
  split at h
  · exact absurd h (by simp)
  next st hsweep =>
    injection h with h1
    injection h1 with h2 h3
    obtain ⟨kept, hkpw, hkmem, hkc, hki⟩ := sweepGo_spec pres.cues.enum {} st hsweep
      (by rw [List.enum_map_fst]; exact List.sorted_lt_range _)
    have hpost : post = { cues := st.kept_cues, cue_groups := [st.kept_identifiers] } :=
      h2.symm
    subst hpost
    simp only [SweepState.kept_cues, SweepState.kept_identifiers, List.append_nil] at hkc hki
    have hmain : ∀ j ∈ kept.map Prod.fst,
        j < pres.cues.length ∧ hasSlideAction (pres.cues.getD j ({} : Cue)) := by
      intro j hj
      obtain ⟨p, hp, rfl⟩ := List.mem_map.mp hj
      obtain ⟨c0, hmem, _, hslide, _⟩ := hkmem p hp
      have hc0 : pres.cues[p.1]? = some c0 := List.mk_mem_enum_iff_getElem?.mp hmem
      have hlt : p.1 < pres.cues.length := (List.getElem?_eq_some.mp hc0).1
      refine ⟨hlt, ?_⟩
      rw [List.getD_eq_getElem?_getD, hc0]
      exact hslide
    refine ⟨kept.map Prod.fst, hkpw, by simp [hkc], by simp [hki], hmain, ?_⟩
    intro i _ hnot hmem
    exact hnot (hmain i hmem).2

def docC10 : Presentation :=
  { cues := [{ uuid := pyOf "s",
               actions := [{ type := 11, rtf := pyOf "\\par\\b0\\i0\\ul0\\strike0 Hej\\par" }] },
              { uuid := pyOf "m", actions := [{ type := 2 }, { type := 8 }] }],
    cue_groups := [[{ string := pyOf "i0" }, { string := pyOf "i1" }]] }

/-- The surviving document after sweeping `docC10`. -/
def postC10 : Presentation :=
  { cues := [{ uuid := pyOf "s", isEnabled := true,
               actions := [{ type := 11, isEnabled := true,
                             rtf := generate_slide_rtf
                               [⟨pyOf "\\b0\\i0\\ul0\\strike0", pyOf "Hej"⟩] 180 }] }],
    cue_groups := [[{ string := pyOf "i0" }]] }

/-- Closed witness for C10 at a concrete document whose second cue has only
`Media` and `Message` actions: that cue and its identifier are gone. -/
theorem C10_slide_less_cues_removed_witness :
    ∃ js : List Nat, js.Pairwise (· < ·) ∧
      postC10.cues.length = js.length ∧
      (∀ j ∈ js, j < docC10.cues.length ∧ hasSlideAction (docC10.cues.getD j ({} : Cue))) ∧
      (∀ i : Nat, i < docC10.cues.length →
        ¬ hasSlideAction (docC10.cues.getD i ({} : Cue)) → i ∉ js) := by
  obtain ⟨js, h1, h2, h3, h4, h5⟩ :=
    C10_slide_less_cues_removed docC10 (some {}) [] true false [] postC10 [] (by decide)
  exact ⟨js, h1, h2, h4, h5⟩

/-- The remainder of `process_slide`'s slide path once the font size has
been resolved (everything from line 200 on). -/
def process_slide_tail (cue : Cue) (a : Action) (rest : List Action) (i tot : Nat)
    (song : Option Song) (ad cs : Bool) (dfs : Option Nat) (fsz : Nat) (st1 : Streams) :
    Except Streams ((Cue × Option Nat × Bool) × Streams) :=
  match cleanup_slide_text (extract_slide_text a.rtf) false song with
  | none => .error st1
  | some cleaned_lines =>
    if cleaned_lines = [] then
      .ok (({ cue with actions := { a with isEnabled := true } :: rest }, dfs, false), st1)
    else
      if cs ∧ cleaned_lines.length = 1 then
        match st1 with
        | [] => .error []
        | ans :: st2 =>
          if ans = [] ∨ (ans.head?.map Char.toLower) ≠ some 'n' then
            .ok (({ cue with actions := { a with isEnabled := true } :: rest },
                   dfs, false), st2)
          else process_slide_finish cue a rest i tot ad cleaned_lines fsz st2
      else process_slide_finish cue a rest i tot ad cleaned_lines fsz st1

theorem process_slide_slide_path {cue : Cue} {a : Action} {rest : List Action}
    {i tot : Nat} {song : Option Song} {pn : PyStr} {dfs : Option Nat} {ad cs : Bool}
    {stdin : Streams} {fsz : Nat} {calls : List (List Nat)} {st1 : Streams}
    (heq : cue.actions = a :: rest)
    (hty : toActionType a.type = some ActionType.PRESENTATION_SLIDE)
    (hfs : extract_font_size a.rtf dfs stdin = .ok ((fsz, calls), st1)) :
    process_slide cue i tot song pn dfs ad cs stdin =
      process_slide_tail cue a rest i tot song ad cs dfs fsz st1 := by
  unfold process_slide
  simp only [heq, hty]
  rw [if_neg (by simp)]
  rcases hres : extract_font_size a.rtf dfs stdin with e | r
  · rw [hres] at hfs
    exact absurd hfs (by simp)
  · rw [hres] at hfs
    injection hfs with h1
    subst h1
    rfl

/-! ### Claim theorems: font-size default threading and end-marker dash -/

/-- C5 (amended): during a sweep, the resolved font size of a slide becomes
the remembered default exactly when the slide is kept — in every resolver
branch, the pure fallback included; when the slide is dropped the default
is left unchanged, even though the resolver did run.  First part: on the
slide path, `process_slide` returns the resolved size iff it keeps the cue,
and the incoming default otherwise.  Second part: a sweep step stores the
returned resolved size as the new default iff the cue was kept. -/
theorem C5_default_font_size_update :
    (∀ (cue : Cue) (a : Action) (rest : List Action) (i tot : Nat) (song : Option Song)
        (pn : PyStr) (dfs : Option Nat) (ad cs : Bool) (stdin : Streams)
        (fsz : Nat) (calls : List (List Nat)) (st1 : Streams)
        (c' : Cue) (fs : Option Nat) (keep : Bool) (st' : Streams),
      cue.actions = a :: rest →
      toActionType a.type = some ActionType.PRESENTATION_SLIDE →
      extract_font_size a.rtf dfs stdin = .ok ((fsz, calls), st1) →
      process_slide cue i tot song pn dfs ad cs stdin = .ok ((c', fs, keep), st') →
      fs = (if keep then some fsz else dfs)) ∧
    (∀ (idents : List CueIdentifier) (song : Option Song) (pn : PyStr) (total : Nat)
        (ad cs : Bool) (i : Nat) (c : Cue) (acts : List Action) (a : Action)
        (arest : List Action) (r : Nat) (calls : List (List Nat)) (st1 : Streams)
        (st st' : SweepState),
      scanActions c.actions = some (some acts) →
      acts = a :: arest →
      toActionType a.type = some ActionType.PRESENTATION_SLIDE →
      extract_font_size a.rtf st.default_font_size st.stdin = .ok ((r, calls), st1) →
      sweepStep idents song pn total ad cs (i, c) st = .ok st' →
      st'.default_font_size =
        (if st'.kept_cues.length = st.kept_cues.length + 1 then some r
         else st.default_font_size)) := by
  have part1 : ∀ (cue : Cue) (a : Action) (rest : List Action) (i tot : Nat)
      (song : Option Song) (pn : PyStr) (dfs : Option Nat) (ad cs : Bool) (stdin : Streams)
      (fsz : Nat) (calls : List (List Nat)) (st1 : Streams)
      (c' : Cue) (fs : Option Nat) (keep : Bool) (st' : Streams),
      cue.actions = a :: rest →
      toActionType a.type = some ActionType.PRESENTATION_SLIDE →
      extract_font_size a.rtf dfs stdin = .ok ((fsz, calls), st1) →
      process_slide cue i tot song pn dfs ad cs stdin = .ok ((c', fs, keep), st') →
      fs = (if keep then some fsz else dfs) := by
    intro cue a rest i tot song pn dfs ad cs stdin fsz calls st1 c' fs keep st' heq hty hfs hps
    rw [process_slide_slide_path heq hty hfs] at hps
    unfold process_slide_tail at hps
    rcases hcl : cleanup_slide_text (extract_slide_text a.rtf) false song with _ | cleaned
    · simp only [hcl] at hps
      exact absurd hps (by simp)
    · simp only [hcl] at hps
      split at hps
      · simp only [Except.ok.injEq, Prod.mk.injEq] at hps
        rw [← hps.1.2.1, ← hps.1.2.2]
        simp
      · split at hps
        · split at hps
          · exact absurd hps (by simp)
          · split at hps
            · simp only [Except.ok.injEq, Prod.mk.injEq] at hps
              rw [← hps.1.2.1, ← hps.1.2.2]
              simp
            · obtain ⟨_, h2, h3, _⟩ := process_slide_finish_ok hps
              rw [h2, h3]
              simp
        · obtain ⟨_, h2, h3, _⟩ := process_slide_finish_ok hps
          rw [h2, h3]
          simp
  refine ⟨part1, ?_⟩
  intro idents song pn total ad cs i c acts a arest r calls st1 st st' hscan hacts hty hfs hstep
  unfold sweepStep at hstep
  simp only [hscan] at hstep
  rcases hps : process_slide { uuid := c.uuid, isEnabled := true, actions := acts }
      i total song pn st.default_font_size ad cs st.stdin with e | res
  · rw [hps] at hstep
    exact absurd hstep (by simp)
  · obtain ⟨⟨c', fs, keep⟩, st2⟩ := res
    simp only [hps] at hstep
    have hfs' : fs = (if keep then some r else st.default_font_size) :=
      part1 { uuid := c.uuid, isEnabled := true, actions := acts } a arest i total song pn
        st.default_font_size ad cs st.stdin r calls st1 c' fs keep st2
        (by simpa using hacts) hty hfs hps
    cases keep with
    | true =>
      rw [if_pos rfl] at hstep
      injection hstep with h1
      rw [← h1]
      simp only [SweepState.default_font_size, SweepState.kept_cues, List.length_cons,
        if_pos rfl]
      simpa using hfs'
    | false =>
      rw [if_neg (by simp)] at hstep
      injection hstep with h1
      rw [← h1]
      simp only [SweepState.default_font_size, SweepState.kept_cues]
      rw [if_neg (by simp)]

def rtfAmbiguous : PyStr := pyOf "\\fs180\\fs200\\par\\b0\\i0\\ul0\\strike0 Hej\\par"

def docC5 : Presentation :=
  { cues := [{ uuid := pyOf "x", actions := [{ type := 11, rtf := rtfAmbiguous }] },
             { uuid := pyOf "y",
               actions := [{ type := 11, rtf := pyOf "\\par\\b0\\i0\\ul0\\strike0 Mod\\par" }] }],
    cue_groups := [[{ string := pyOf "i0" }, { string := pyOf "i1" }]] }

def postC5 : Presentation :=
  { cues := [{ uuid := pyOf "x", isEnabled := true,
               actions := [{ type := 11, isEnabled := true,
                             rtf := generate_slide_rtf
                               [⟨pyOf "\\b0\\i0\\ul0\\strike0", pyOf "Hej"⟩] 180 }] },
             { uuid := pyOf "y", isEnabled := true,
               actions := [{ type := 11, isEnabled := true,
                             rtf := generate_slide_rtf
                               [⟨pyOf "\\b0\\i0\\ul0\\strike0", pyOf "Mod"⟩] 180 }] }],
    cue_groups := [[{ string := pyOf "i0" }, { string := pyOf "i1" }]] }

/-- C5 (counterexample): the sweep runs from the last cue to the first.  In
`docC5` the last cue has no font-size token, so its size resolves through
the pure fallback — and, the cue being kept, 180 becomes the remembered
default.  The first cue's markup carries the ambiguous set `{180, 200}`:
with no remembered default this would require a decision-provider call
(second conjunct: it raises on empty input), yet the whole sweep succeeds
on empty input (first conjunct) precisely because the fallback value was
remembered, contradicting the claim that a pure-fallback resolution leaves
the remembered default unchanged. -/
theorem C5_counterexample :
    cleanup_slides docC5 (some {}) [] false false [] = .ok (postC5, []) ∧
    extract_font_size rtfAmbiguous none [] = .error [] ∧
    extract_font_size rtfAmbiguous (some 180) [] = .ok ((180, []), []) := by
  refine ⟨by decide, by decide, by decide⟩

def cueC5w : Cue :=
  { uuid := pyOf "w",
    actions := [{ type := 11, rtf := pyOf "\\par\\b0\\i0\\ul0\\strike0 Hej\\par" }] }

def slideActC5w : Action :=
  { type := 11, rtf := pyOf "\\par\\b0\\i0\\ul0\\strike0 Hej\\par" }

def dashedActC5w : Action :=
  { type := 11, isEnabled := true,
    rtf := generate_slide_rtf
      (dashTransform [⟨pyOf "\\b0\\i0\\ul0\\strike0", pyOf "Hej"⟩]) 180 }

def stC5w : SweepState :=
  { kept_cues := [{ uuid := pyOf "w", isEnabled := true, actions := [dashedActC5w] }],
    kept_identifiers := [{ string := pyOf "iw" }],
    default_font_size := some 180,
    stdin := [] }

/-- Closed witness for C5 at a concrete kept slide. -/
theorem C5_default_font_size_update_witness :
    (some 180 : Option Nat) = (if true then some 180 else none) ∧
    stC5w.default_font_size =
      (if stC5w.kept_cues.length = ({} : SweepState).kept_cues.length + 1 then some 180
       else ({} : SweepState).default_font_size) := by
  constructor
  · exact C5_default_font_size_update.1 cueC5w slideActC5w [] 0 1
      (some {}) [] none true false [] 180 [] []
      { uuid := pyOf "w", actions := [dashedActC5w] } (some 180) true []
      (by decide) (by decide) (by decide) (by decide)
  · exact C5_default_font_size_update.2 [{ string := pyOf "iw" }] (some {}) [] 1 true false
      0 cueC5w [slideActC5w] slideActC5w [] 180 [] [] {} stC5w
      (by decide) (by decide) (by decide) (by decide) (by decide)

/-- C6 (amended): the end-marker transformation is applied to a kept slide
exactly when its original position is the last of the document
(`slide_index = total_slides - 1`) and end-marker behavior is enabled, and
then as the claim describes it (first cleaned line `...` rewrites the last
line to a bare dash, otherwise a trailing dash line is appended and a
leading blank line prepended).  It is not applied to the last *surviving*
cue: if the original last cue is dropped, no surviving cue receives the
dash (see the counterexample). -/
theorem C6_dash_on_original_last_slide :
    ∀ (cue : Cue) (a : Action) (rest : List Action) (i tot : Nat) (song : Option Song)
      (pn : PyStr) (dfs : Option Nat) (ad : Bool) (stdin : Streams)
      (fsz : Nat) (calls : List (List Nat)) (st1 : Streams) (cleaned : List FormattedLine),
      cue.actions = a :: rest →
      toActionType a.type = some ActionType.PRESENTATION_SLIDE →
      extract_font_size a.rtf dfs stdin = .ok ((fsz, calls), st1) →
      cleanup_slide_text (extract_slide_text a.rtf) false song = some cleaned →
      cleaned ≠ [] →
      process_slide cue i tot song pn dfs ad false stdin =
        .ok (({ cue with actions :=
                  { a with isEnabled := true,
                           rtf := generate_slide_rtf
                             (if i = tot - 1 ∧ ad then dashTransform cleaned else cleaned)
                             fsz } :: rest },
               some fsz, true), st1) := by
  intro cue a rest i tot song pn dfs ad stdin fsz calls st1 cleaned heq hty hfs hcl hne
  rw [process_slide_slide_path heq hty hfs]
  unfold process_slide_tail
  simp only [hcl]
  rw [if_neg hne, if_neg (by simp)]
  rfl

def docC6 : Presentation :=
  { cues := [{ uuid := pyOf "a",
               actions := [{ type := 11, rtf := pyOf "\\par\\b0\\i0\\ul0\\strike0 Hej\\par" }] },
             { uuid := pyOf "b",
               actions := [{ type := 11, rtf := pyOf "\\par\\b0\\i0\\ul0\\strike0 -\\par" }] }],
    cue_groups := [[{ string := pyOf "i0" }, { string := pyOf "i1" }]] }

def postC6 : Presentation :=
  { cues := [{ uuid := pyOf "a", isEnabled := true,
               actions := [{ type := 11, isEnabled := true,
                             rtf := generate_slide_rtf
                               [⟨pyOf "\\b0\\i0\\ul0\\strike0", pyOf "Hej"⟩] 180 }] }],
    cue_groups := [[{ string := pyOf "i0" }]] }

/-- C6 (counterexample): with end-marker behavior enabled, a sweep of
`docC6` drops the original last cue (its only line `-` trims to nothing)
and keeps the first cue, which is then the last surviving cue — yet its
regenerated markup is the undashed one, and differs from what the dash
transformation would have produced. -/
theorem C6_counterexample :
    cleanup_slides docC6 (some {}) [] true false [] = .ok (postC6, []) ∧
    postC6.cues.length = 1 ∧
    generate_slide_rtf
        (dashTransform [⟨pyOf "\\b0\\i0\\ul0\\strike0", pyOf "Hej"⟩]) 180 ≠
      generate_slide_rtf [⟨pyOf "\\b0\\i0\\ul0\\strike0", pyOf "Hej"⟩] 180 := by
  refine ⟨by decide, by decide, by decide⟩

/-- Closed witness for C6: a single-cue document with the flag on receives
the dash transformation. -/
theorem C6_dash_on_original_last_slide_witness :
    process_slide cueC5w 0 1 (some {}) [] none true false [] =
      .ok (({ cueC5w with actions :=
                { type := 11, isEnabled := true,
                  rtf := generate_slide_rtf
                    (if 0 = 1 - 1 ∧ true then
                      dashTransform [⟨pyOf "\\b0\\i0\\ul0\\strike0", pyOf "Hej"⟩]
                     else [⟨pyOf "\\b0\\i0\\ul0\\strike0", pyOf "Hej"⟩]) 180 } :: [] },
             some 180, true), []) := by
  exact C6_dash_on_original_last_slide cueC5w
    { type := 11, rtf := pyOf "\\par\\b0\\i0\\ul0\\strike0 Hej\\par" } [] 0 1
    (some {}) [] none true [] 180 [] [] [⟨pyOf "\\b0\\i0\\ul0\\strike0", pyOf "Hej"⟩]
    (by decide) (by decide) (by decide) (by decide) (by decide)

/-! ### Claim theorems: extraction/composition round trip -/

/-- Whether the string contains a backslash immediately followed by `b` —
the token every extraction pattern needs somewhere in a match. -/
def hasBSb : PyStr → Bool
  | [] => false
  | [_] => false
  | c :: d :: rest => (c = '\\' && d = 'b') || hasBSb (d :: rest)

theorem hasBSb_tail {c : Char} {t : PyStr} (h : hasBSb (c :: t) = false) :
    hasBSb t = false := by
  cases t with
  | nil => rfl
  | cons d r =>
    simp only [hasBSb, Bool.or_eq_false_iff] at h
    exact h.2

theorem hasBSb_cons {c : Char} {t : PyStr} (hc : c ≠ '\\') (ht : hasBSb t = false) :
    hasBSb (c :: t) = false := by
  cases t with
  | nil => rfl
  | cons d r =>
    simp only [hasBSb, Bool.or_eq_false_iff]
    exact ⟨by simp [hc], ht⟩

theorem hasBSb_append {a b : PyStr} (ha : hasBSb a = false) (hb : hasBSb b = false)
    (hab : a.getLast? ≠ some '\\' ∨ b.head? ≠ some 'b') : hasBSb (a ++ b) = false := by
  induction a with
  | nil => simpa using hb
  | cons c t ih =>
    cases t with
    | nil =>
      cases b with
      | nil => rfl
      | cons d b' =>
        simp only [List.singleton_append, hasBSb, Bool.or_eq_false_iff]
        refine ⟨?_, hb⟩
        rcases hab with h1 | h2
        · simp only [List.getLast?_singleton, ne_eq, Option.some.injEq] at h1
          simp [h1]
        · simp only [List.head?_cons, ne_eq, Option.some.injEq] at h2
          simp [h2]
    | cons c2 r =>
      simp only [List.cons_append, hasBSb, Bool.or_eq_false_iff] at ha ⊢
      refine ⟨ha.1, ?_⟩
      refine ih ha.2 ?_
      rcases hab with h1 | h2
      · left
        rwa [List.getLast?_cons_cons] at h1
      · right
        exact h2

theorem eatLit_eq : ∀ {p s r : PyStr}, eatLit p s = some r → s = p ++ r := by
  intro p
  induction p with
  | nil =>
    intro s r h
    simp only [eatLit, Option.some.injEq] at h
    rw [h]
    rfl
  | cons x xs ih =>
    intro s r h
    cases s with
    | nil => exact absurd h (by simp [eatLit])
    | cons c cs =>
      unfold eatLit at h
      split at h
      · rw [ih h]
        next hx => rw [hx]; rfl
      · exact absurd h (by simp)

theorem fmtChain_bsb {s r : PyStr} (h : fmtChain s = some r) : hasBSb s = true := by
  unfold fmtChain at h
  rcases he : eatLit (pyOf "\\b") s with _ | r1
  · rw [he] at h
    simp at h
  · rw [eatLit_eq he]
    rfl

theorem tryMarkerPat_bsb {m : PyStr} {d : Bool} {t : List PyStr} {s : PyStr}
    {x : (PyStr × PyStr) × PyStr} (h : tryMarkerPat m d t s = some x) :
    hasBSb s = true := by
  unfold tryMarkerPat at h
  rcases hf : fmtChain s with _ | rest
  · rw [hf] at h
    simp at h
  · exact fmtChain_bsb hf

theorem tryP4_bsb {s : PyStr} {x : (PyStr × PyStr) × PyStr} (h : tryP4 s = some x) :
    hasBSb s = true := by
  unfold tryP4 at h
  rcases he : eatLit (pyOf "\\par") s with _ | r0
  · rw [he] at h
    simp at h
  · rw [he] at h
    rcases hf : fmtChain r0 with _ | r1
    · simp [hf] at h
    · rw [eatLit_eq he]
      rcases hb : eatLit (pyOf "\\b") r0 with _ | r2
      · exfalso
        unfold fmtChain at hf
        rw [hb] at hf
        simp at hf
      · rw [eatLit_eq hb]
        rfl

theorem reFindallGo_succ (m : PyStr → Option ((PyStr × PyStr) × PyStr)) (n : Nat)
    (s : PyStr) :
    reFindallGo m (n + 1) s =
      (match m s with
       | some (g, rest) => g :: reFindallGo m n rest
       | none =>
         match s with
         | [] => []
         | _ :: t => reFindallGo m n t) := rfl

theorem reFindallGo_nil {m : PyStr → Option ((PyStr × PyStr) × PyStr)}
    (hm : ∀ t x, m t = some x → hasBSb t = true) :
    ∀ (fuel : Nat) (s : PyStr), hasBSb s = false → reFindallGo m fuel s = [] := by
  intro fuel
  induction fuel with
  | zero => intro s _; rfl
  | succ n ih =>
    intro s hs
    rw [reFindallGo_succ]
    rcases hms : m s with _ | x
    · simp only [hms]
      cases s with
      | nil => rfl
      | cons c t => exact ih t (hasBSb_tail hs)
    · rw [hm s x hms] at hs
      exact absurd hs (by simp)

theorem extract_slide_text_nil {rtf : PyStr} (h : hasBSb rtf = false) :
    extract_slide_text rtf = [] := by
  have h1 : reFindallGo tryP1 (rtf.length + 1) rtf = [] :=
    reFindallGo_nil (fun t x ht => tryMarkerPat_bsb ht) _ _ h
  have h2 : reFindallGo tryP2 (rtf.length + 1) rtf = [] :=
    reFindallGo_nil (fun t x ht => tryMarkerPat_bsb ht) _ _ h
  have h3 : reFindallGo tryP3 (rtf.length + 1) rtf = [] :=
    reFindallGo_nil (fun t x ht => tryMarkerPat_bsb ht) _ _ h
  have h4 : reFindallGo tryP4 (rtf.length + 1) rtf = [] :=
    reFindallGo_nil (fun t x ht => tryP4_bsb ht) _ _ h
  unfold extract_slide_text reFindall
  rw [h1, h2, h3, h4]
  simp

/-- No markup-reserved content: printable ASCII and no backslash. -/
def noMarkup (s : PyStr) : Prop :=
  ∀ c ∈ s, 32 ≤ c.toNat ∧ c.toNat ≤ 127 ∧ c ≠ '\\'

instance (s : PyStr) : Decidable (noMarkup s) := by
  unfold noMarkup; infer_instance

theorem normalize_id {t : PyStr} (h : noMarkup t) : normalize t = t := by
  induction t with
  | nil => rfl
  | cons c r ih =>
    obtain ⟨h1, h2, _⟩ := h c (by simp)
    unfold normalize
    simp only [List.map_cons, List.flatten_cons, if_pos (And.intro h1 h2)]
    have := ih fun x hx => h x (by simp [hx])
    unfold normalize at this
    rw [this]
    rfl

theorem noMarkup_hasBSb {s : PyStr} (h : noMarkup s) : hasBSb s = false := by
  induction s with
  | nil => rfl
  | cons c r ih =>
    exact hasBSb_cons (h c (by simp)).2.2 (ih fun x hx => h x (by simp [hx]))

theorem joinPar_bsb {ls : List PyStr} (h : ∀ p ∈ ls, hasBSb p = false) :
    hasBSb (joinPar ls) = false := by
  induction ls with
  | nil => rfl
  | cons l rest ih =>
    cases rest with
    | nil => exact h l (by simp)
    | cons l2 r =>
      show hasBSb ((l ++ pyOf "\\par") ++ joinPar (l2 :: r)) = false
      have hl4 : l ++ pyOf "\\par" = (l ++ ['\\', 'p', 'a']) ++ ['r'] := by
        rw [List.append_assoc]
        rfl
      refine hasBSb_append ?_ (ih fun p hp => h p (by simp [hp])) (Or.inl ?_)
      · exact hasBSb_append (h l (by simp)) (by decide) (Or.inr (by decide))
      · rw [hl4, List.getLast?_concat]
        decide

theorem generate_slide_rtf_bsb {lines : List FormattedLine}
    (h : ∀ L ∈ lines, noMarkup L.formatting ∧ noMarkup L.text) :
    hasBSb (generate_slide_rtf lines 180) = false := by
  have hpieces : ∀ p ∈ lines.map (fun L => L.formatting ++ ' ' :: normalize L.text),
      hasBSb p = false := by
    intro p hp
    obtain ⟨L, hL, rfl⟩ := List.mem_map.mp hp
    obtain ⟨hf, ht⟩ := h L hL
    rw [normalize_id ht]
    refine hasBSb_append (noMarkup_hasBSb hf) ?_ (Or.inr (by simp))
    exact hasBSb_cons (by decide) (noMarkup_hasBSb ht)
  unfold generate_slide_rtf
  refine hasBSb_append ?_ (by decide) (Or.inr (by decide))
  exact hasBSb_append (by decide) (joinPar_bsb hpieces) (Or.inl (by decide))

/-- C8 (amended): on any line list whose texts and formatting prefixes
contain no markup-reserved characters (printable ASCII, no backslash),
extraction applied to the composed markup blob returns no lines at all —
the four extraction patterns all require a `\b...` formatting token (or
`\par\b...`) that the composer never emits — so extraction and composition
are semantically inverse on visible text only for the empty line list. -/
theorem C8_extract_compose_not_inverse :
    ∀ lines : List FormattedLine,
      (∀ L ∈ lines, noMarkup L.formatting ∧ noMarkup L.text) →
      extract_slide_text (generate_slide_rtf lines 180) = [] ∧
      ((extract_slide_text (generate_slide_rtf lines 180)).map FormattedLine.text =
          lines.map FormattedLine.text ↔ lines = []) := by
  intro lines h
  have hnil := extract_slide_text_nil (generate_slide_rtf_bsb h)
  refine ⟨hnil, ?_⟩
  rw [hnil]
  constructor
  · intro he
    exact List.map_eq_nil_iff.mp he.symm
  · intro he
    rw [he]

/-- C8 (counterexample): a single plain line round-trips to nothing, not to
its own text. -/
theorem C8_counterexample :
    (extract_slide_text (generate_slide_rtf [⟨[], pyOf "Hello"⟩] 180)).map
        FormattedLine.text ≠
      [⟨([] : PyStr), pyOf "Hello"⟩].map FormattedLine.text := by
  decide

/-- Closed witness for C8 at a concrete one-line list. -/
theorem C8_extract_compose_not_inverse_witness :
    extract_slide_text (generate_slide_rtf [⟨[], pyOf "Hej"⟩] 180) = [] ∧
    ((extract_slide_text (generate_slide_rtf [⟨[], pyOf "Hej"⟩] 180)).map
        FormattedLine.text =
        [(⟨[], pyOf "Hej"⟩ : FormattedLine)].map FormattedLine.text ↔
      ([(⟨[], pyOf "Hej"⟩ : FormattedLine)] : List FormattedLine) = []) :=
  C8_extract_compose_not_inverse [⟨[], pyOf "Hej"⟩] (by decide)

/-! ### Claim theorems: idempotence of body-mode cleanup -/

/-- A text on which every per-line pass of the cleaner is the identity. -/
def cleanLineB (t : PyStr) : Bool :=
  (pyReplace t (pyOf "\\tab") [] == t) && (pyReplace t (pyOf "\\par") [] == t) &&
  (pyStrip t == t) && (!(pyStartsWith t (pyOf "*"))) && (pyReplace t (pyOf "*") [] == t) &&
  (pyReplace t (pyOf "\\u8232?") [] == t) && (!(pyStartsWith t (normalize (pyOf "©")))) &&
  (!(pyStartsWith t (normalize2 (pyOf "©")))) && (!(matchesVerse t))

def notTrimB (L : FormattedLine) : Bool := !(isTrimText L)

/-- The body-mode end trimming touches nothing. -/
def endsCleanB (l : List FormattedLine) : Bool :=
  l.head?.all notTrimB && l.getLast?.all notTrimB

/-- The standalone-number merge does not fire. -/
def noMergeB : List FormattedLine → Bool
  | a :: _ :: _ => !(matchesBareNum a.text)
  | _ => true

/-- The ellipsis-centering pass does not fire. -/
def noPadB (l : List FormattedLine) : Bool :=
  (!(((l.head?.map FormattedLine.text) == some (pyOf "...")) &&
     (!((l.getLast?.map FormattedLine.text) == some (pyOf "..."))))) &&
  (!(((l.getLast?.map FormattedLine.text) == some (pyOf "...")) &&
     (!((l.head?.map FormattedLine.text) == some (pyOf "...")))))

/-- Shapes the cleaner's own body-mode output can have and maps to itself:
either nothing fires, or the list is an ellipsis list padded with one blank
line at the end (resp. the front), which trimming removes and the
ellipsis-centering pass restores. -/
def bodyShapeB (l : List FormattedLine) : Bool :=
  (endsCleanB l && noMergeB l && noPadB l) ||
  ((l.getLast? == some ({} : FormattedLine)) && (!(l.dropLast == ([] : List FormattedLine))) &&
   ((l.dropLast.head?.map FormattedLine.text) == some (pyOf "...")) &&
   l.dropLast.getLast?.all notTrimB &&
   (!((l.dropLast.getLast?.map FormattedLine.text) == some (pyOf "...")))) ||
  ((l.head? == some ({} : FormattedLine)) && (!(l.tail == ([] : List FormattedLine))) &&
   ((l.tail.getLast?.map FormattedLine.text) == some (pyOf "...")) &&
   l.tail.head?.all notTrimB &&
   (!((l.tail.head?.map FormattedLine.text) == some (pyOf "..."))) &&
   noMergeB l.tail)

/-- Fully-cleaned body-mode output: every line is pass-invariant and the
list has one of the stable shapes. -/
def cleanedBody (l : List FormattedLine) : Bool :=
  l.all (fun L => cleanLineB L.text) && bodyShapeB l

theorem cleanLineB_spec {t : PyStr} (h : cleanLineB t = true) :
    pyReplace t (pyOf "\\tab") [] = t ∧ pyReplace t (pyOf "\\par") [] = t ∧
    pyStrip t = t ∧ pyStartsWith t (pyOf "*") = false ∧ pyReplace t (pyOf "*") [] = t ∧
    pyReplace t (pyOf "\\u8232?") [] = t ∧
    pyStartsWith t (normalize (pyOf "©")) = false ∧
    pyStartsWith t (normalize2 (pyOf "©")) = false ∧ matchesVerse t = false := by
  simp only [cleanLineB, Bool.and_eq_true, beq_iff_eq, Bool.not_eq_true'] at h
  tauto

theorem filter_eq_self_of_mem {p : FormattedLine → Bool} {l : List FormattedLine}
    (h : ∀ x ∈ l, p x = true) : l.filter p = l :=
  List.filter_eq_self.mpr h

theorem dropWhile_eq_self_of_head (p : FormattedLine → Bool) (l : List FormattedLine)
    (h : l.head?.all (fun a => !(p a)) = true) : l.dropWhile p = l := by
  cases l with
  | nil => rfl
  | cons a t =>
    simp only [List.head?_cons, Option.all_some, Bool.not_eq_true'] at h
    simp [List.dropWhile_cons, h]

theorem pyTrimEnds_eq_self {l : List FormattedLine} (h : endsCleanB l = true) :
    pyTrimEnds l = l := by
  simp only [endsCleanB, Bool.and_eq_true] at h
  unfold pyTrimEnds
  rw [dropWhile_eq_self_of_head isTrimText l h.1]
  rw [dropWhile_eq_self_of_head isTrimText l.reverse
    (by rw [List.head?_reverse]; exact h.2)]
  exact List.reverse_reverse l

theorem pyTrimEnds_concat_blank {p : List FormattedLine}
    (hhead : p.head?.all notTrimB = true) (hlast : p.getLast?.all notTrimB = true)
    (hne : p ≠ []) :
    pyTrimEnds (p ++ [({} : FormattedLine)]) = p := by
  unfold pyTrimEnds
  cases p with
  | nil => exact absurd rfl hne
  | cons a t =>
    simp only [List.head?_cons, Option.all_some, notTrimB, Bool.not_eq_true'] at hhead
    rw [List.cons_append, List.dropWhile_cons, if_neg (by simp [hhead])]
    have hrev : ((a :: t) ++ [({} : FormattedLine)]).reverse =
        ({} : FormattedLine) :: (a :: t).reverse := by simp
    rw [← List.cons_append, hrev]
    rw [List.dropWhile_cons, if_pos (by decide)]
    rw [dropWhile_eq_self_of_head isTrimText (a :: t).reverse
      (by rw [List.head?_reverse]; exact hlast)]
    exact List.reverse_reverse _

theorem pyTrimEnds_blank_cons {p : List FormattedLine}
    (hhead : p.head?.all notTrimB = true) (hlast : p.getLast?.all notTrimB = true) :
    pyTrimEnds (({} : FormattedLine) :: p) = p := by
  unfold pyTrimEnds
  rw [List.dropWhile_cons, if_pos (by decide)]
  rw [dropWhile_eq_self_of_head isTrimText p hhead]
  rw [dropWhile_eq_self_of_head isTrimText p.reverse
    (by rw [List.head?_reverse]; exact hlast)]
  exact List.reverse_reverse p

theorem numberMerge_eq_self {l : List FormattedLine} (h : noMergeB l = true) :
    numberMerge l = l := by
  cases l with
  | nil => rfl
  | cons a t =>
    cases t with
    | nil => rfl
    | cons b r =>
      simp only [noMergeB, Bool.not_eq_true'] at h
      simp [numberMerge, h]

theorem ellipsisPad_eq_self {l : List FormattedLine} (h : noPadB l = true) :
    ellipsisPad l = l := by
  simp only [noPadB, Bool.and_eq_true, Bool.not_eq_true', Bool.and_eq_false_iff,
    beq_eq_false_iff_ne, ne_eq, beq_iff_eq, Bool.not_eq_false'] at h
  unfold ellipsisPad
  rw [if_neg, if_neg]
  · intro hc
    rcases h.2 with h2 | h2
    · exact h2 hc.1
    · exact hc.2 h2
  · intro hc
    rcases h.1 with h1 | h1
    · exact h1 hc.1
    · exact hc.2 h1

theorem ellipsisPad_append_blank {p : List FormattedLine}
    (hhead : (p.head?.map FormattedLine.text) = some (pyOf "..."))
    (hlast : (p.getLast?.map FormattedLine.text) ≠ some (pyOf "...")) :
    ellipsisPad p = p ++ [({} : FormattedLine)] := by
  unfold ellipsisPad
  rw [if_pos ⟨hhead, hlast⟩]

theorem ellipsisPad_cons_blank {p : List FormattedLine}
    (hlast : (p.getLast?.map FormattedLine.text) = some (pyOf "..."))
    (hhead : (p.head?.map FormattedLine.text) ≠ some (pyOf "...")) :
    ellipsisPad p = ({} : FormattedLine) :: p := by
  unfold ellipsisPad
  rw [if_neg (fun hc => hhead hc.1), if_pos ⟨hlast, hhead⟩]

theorem notTrimB_of_ellipsis {a : FormattedLine} (h : a.text = pyOf "...") :
    notTrimB a = true := by
  unfold notTrimB isTrimText
  rw [h]
  decide

theorem matchesBareNum_ellipsis : matchesBareNum (pyOf "...") = false := by decide

theorem numberMerge_of_head_ellipsis {p : List FormattedLine}
    (h : (p.head?.map FormattedLine.text) = some (pyOf "...")) : numberMerge p = p := by
  cases p with
  | nil => rfl
  | cons a t =>
    cases t with
    | nil => rfl
    | cons b r =>
      have ha : a.text = pyOf "..." := by simpa using h
      simp [numberMerge, ha, matchesBareNum_ellipsis]

/-- The per-line passes of `cleanup_slide_text` chained, as they run on the
input before the end trimming. -/
def stage6 (lines : List FormattedLine) : List FormattedLine :=
  ((((((lines.map (fun L =>
      ((L.replace (pyOf "\\tab") []).replace (pyOf "\\par") []).strip)).filter
    (fun L => !(L.startswith (pyOf "*")))).map
    (fun L => L.replace (pyOf "*") [])).map
    (fun L => L.replace (pyOf "\\u8232?") [])).filter
    (fun L =>
      !(L.startswith (normalize (pyOf "©"))) && !(L.startswith (normalize2 (pyOf "©"))))).filter
    (fun L => !(matchesVerse L.text))).map FormattedLine.strip

theorem cleanup_slide_text_body (lines : List FormattedLine) (s : Song) :
    cleanup_slide_text lines false (some s) =
      Option.map (fun l8 => if l8 = [] then [] else ellipsisPad (numberMerge l8))
        (if s.book ≠ [] ∧ s.number ≠ 0 then some (bookInfoFilter s (pyTrimEnds (stage6 lines)))
          else some (pyTrimEnds (stage6 lines))) := rfl

theorem stage6_eq_self {l : List FormattedLine}
    (hall : ∀ L ∈ l, cleanLineB L.text = true) : stage6 l = l := by
  have h1 : l.map (fun L => ((L.replace (pyOf "\\tab") []).replace (pyOf "\\par") []).strip) = l :=
    map_id_of_mem (fun L hL => by
      obtain ⟨e1, e2, e3, _, _, _, _, _, _⟩ := cleanLineB_spec (hall L hL)
      simp only [FormattedLine.replace, FormattedLine.strip, e1, e2, e3])
  have h2 : l.filter (fun L => !(L.startswith (pyOf "*"))) = l :=
    filter_eq_self_of_mem (fun L hL => by
      obtain ⟨_, _, _, e4, _, _, _, _, _⟩ := cleanLineB_spec (hall L hL)
      simp [FormattedLine.startswith, e4])
  have h3 : l.map (fun L => L.replace (pyOf "*") []) = l :=
    map_id_of_mem (fun L hL => by
      obtain ⟨_, _, _, _, e5, _, _, _, _⟩ := cleanLineB_spec (hall L hL)
      simp only [FormattedLine.replace, e5])
  have h4 : l.map (fun L => L.replace (pyOf "\\u8232?") []) = l :=
    map_id_of_mem (fun L hL => by
      obtain ⟨_, _, _, _, _, e6, _, _, _⟩ := cleanLineB_spec (hall L hL)
      simp only [FormattedLine.replace, e6])
  have h5 : l.filter (fun L =>
      !(L.startswith (normalize (pyOf "©"))) && !(L.startswith (normalize2 (pyOf "©")))) = l :=
    filter_eq_self_of_mem (fun L hL => by
      obtain ⟨_, _, _, _, _, _, e7, e8, _⟩ := cleanLineB_spec (hall L hL)
      simp [FormattedLine.startswith, e7, e8])
  have h6 : l.filter (fun L => !(matchesVerse L.text)) = l :=
    filter_eq_self_of_mem (fun L hL => by
      obtain ⟨_, _, _, _, _, _, _, _, e9⟩ := cleanLineB_spec (hall L hL)
      simp [e9])
  have h7 : l.map FormattedLine.strip = l :=
    map_id_of_mem (fun L hL => by
      obtain ⟨_, _, e3, _, _, _, _, _, _⟩ := cleanLineB_spec (hall L hL)
      simp only [FormattedLine.strip, e3])
  unfold stage6
  rw [h1, h2, h3, h4, h5, h6, h7]

theorem cleanup_body_fixed_point (l : List FormattedLine) (s : Song)
    (hbn : s.book = [] ∨ s.number = 0) (hclean : cleanedBody l = true) :
    cleanup_slide_text l false (some s) = some l := by
  simp only [cleanedBody, Bool.and_eq_true] at hclean
  obtain ⟨hall', hshape⟩ := hclean
  have hall : ∀ L ∈ l, cleanLineB L.text = true := by
    simpa using List.all_eq_true.mp hall'
  rw [cleanup_slide_text_body, if_neg (fun hc => hbn.elim (fun h => hc.1 h) (fun h => hc.2 h)),
    stage6_eq_self hall]
  simp only [Option.map_some', Option.some.injEq]
  simp only [bodyShapeB, Bool.or_eq_true, Bool.and_eq_true, beq_iff_eq, Bool.not_eq_true',
    beq_eq_false_iff_ne, ne_eq] at hshape
  rcases hshape with (⟨⟨hA1, hA2⟩, hA3⟩ | ⟨⟨⟨⟨hB1, hB2⟩, hB3⟩, hB4⟩, hB5⟩) |
    ⟨⟨⟨⟨⟨hC1, hC2⟩, hC3⟩, hC4⟩, hC5⟩, hC6⟩
  · rw [pyTrimEnds_eq_self hA1]
    by_cases hnil : l = []
    · rw [if_pos hnil]
      exact hnil.symm
    · rw [if_neg hnil, numberMerge_eq_self hA2, ellipsisPad_eq_self hA3]
  · have hlne : l ≠ [] := by
      intro h
      rw [h] at hB1
      simp at hB1
    have hhead : Option.all notTrimB l.dropLast.head? = true := by
      obtain ⟨a, ha1, ha2⟩ := Option.map_eq_some'.mp hB3
      rw [ha1]
      exact notTrimB_of_ellipsis ha2
    have hlast_eq : l.getLast hlne = ({} : FormattedLine) := by
      have h0 := List.getLast?_eq_getLast l hlne
      rw [h0] at hB1
      exact Option.some.inj hB1
    have hdecomp : l.dropLast ++ [({} : FormattedLine)] = l := by
      rw [← hlast_eq]
      exact List.dropLast_append_getLast hlne
    have htrim : pyTrimEnds l = l.dropLast := by
      conv_lhs => rw [← hdecomp]
      exact pyTrimEnds_concat_blank hhead hB4 hB2
    rw [htrim, if_neg hB2, numberMerge_of_head_ellipsis hB3, ellipsisPad_append_blank hB3 hB5]
    exact hdecomp
  · cases l with
    | nil => simp at hC1
    | cons a t =>
      have ha : a = ({} : FormattedLine) := by simpa using hC1
      subst ha
      simp only [List.tail_cons] at hC2 hC3 hC4 hC5 hC6
      have hlast' : Option.all notTrimB t.getLast? = true := by
        obtain ⟨x, hx1, hx2⟩ := Option.map_eq_some'.mp hC3
        rw [hx1]
        exact notTrimB_of_ellipsis hx2
      have htrim : pyTrimEnds (({} : FormattedLine) :: t) = t :=
        pyTrimEnds_blank_cons hC4 hlast'
      rw [htrim, if_neg hC2, numberMerge_eq_self hC6, ellipsisPad_cons_blank hC3 hC5]

def lC9a : List FormattedLine := [⟨[], pyOf "3"⟩, ⟨[], []⟩, ⟨[], pyOf "x"⟩]

def lC9b : List FormattedLine := [⟨[], pyOf "3. "⟩, ⟨[], pyOf "x"⟩]

def lC9c : List FormattedLine := [⟨[], pyOf "3. x"⟩]

def lC9w : List FormattedLine := [⟨[], pyOf "Hej"⟩]

/-- C9 (amended): body-mode cleanup is idempotent on its own output when the
Content carries no book+number label (book or number falsy, so the info
filter is skipped) and the output is fully cleaned: every output line is
invariant under the per-line passes and the list has one of the stable
shapes (nothing fires, or an ellipsis list padded with a single blank on
the side opposite the ellipsis). Reapplying cleanup to such an output
returns it unchanged. -/
theorem C9_body_cleanup_idempotent_on_cleaned_output (lines out : List FormattedLine) (s : Song)
    (hbn : s.book = [] ∨ s.number = 0)
    (hout : cleanup_slide_text lines false (some s) = some out)
    (hcl : cleanedBody out = true) :
    cleanup_slide_text out false (some s) = some out :=
  cleanup_body_fixed_point out s hbn hcl

/-- C9 counterexample to the unconditional claim: the slide `["3", "", "x"]`
cleans to `["3. ", "x"]` (the bare number merges into the emptied second
line, leaving a trailing space that the earlier strip pass can no longer
remove), and a second application strips that space, re-recognises `"3."`
as a bare number and merges it into `"x"`, producing the different list
`["3. x"]`. -/
theorem C9_counterexample :
    cleanup_slide_text lC9a false (some ({} : Song)) = some lC9b ∧
    cleanup_slide_text lC9b false (some ({} : Song)) = some lC9c ∧
    lC9c ≠ lC9b := by decide

/-- C9 witness: a plain one-line slide is a fixed point of body-mode
cleanup. -/
theorem C9_body_cleanup_idempotent_on_cleaned_output_witness :
    cleanup_slide_text lC9w false (some ({} : Song)) = some lC9w :=
  C9_body_cleanup_idempotent_on_cleaned_output lC9w lC9w {} (Or.inl rfl) (by decide) (by decide)

end PP
